import Mathlib

/-!
Verification development for the gelix compiler's semantic-analysis core.

The definitions below are a shallow embedding of the GIR type model and
resolver (crates/gir-nodes/src/types.rs, crates/gir-generator/src/resolver.rs)
and of the older GIR field pass (src/gir/generator/passes/fields.rs,
src/gir/nodes/declaration.rs).  Reference-counted shared declarations
(`MutRc<ADT>`, `MutRc<Function>`) are modelled as indices (`Nat`) into a
heap `Nat → DeclInfo`; `Rc::ptr_eq` becomes index equality and
`x.borrow()` becomes heap lookup.
-/

namespace Gelix

/-- Builtin bound markers (gir-nodes/src/types.rs, `enum Bound`). -/
inductive BoundMarker where
  | unbounded
  | primitive
  | number
  | integer
  | signedInt
  | unsignedInt
  | float
  | adtBound
  | nullableBound
  deriving DecidableEq, Repr

/-- Cast kinds. Modelled from the spec: `CastType` lives in
gir-nodes/src/expression.rs which is not under src/; the spec's cast
lattice (§4.2) lists the kinds
`Bitcast, ToNullable, ToInterface, NumericWiden, NumericTruncate,
EnumCaseToParent`, and the resolver source uses `Bitcast` and
`ToNullable` by name. -/
inductive CastType where
  | bitcast
  | toNullable
  | toInterface
  | numericWiden
  | numericTruncate
  | enumCaseToParent
  deriving DecidableEq, Repr

mutual

/-- The GIR `Type` enum (gir-nodes/src/types.rs).  `Instance<T>` is
flattened into the `function`/`adt` constructors as a declaration
reference (`tyRef`, standing for the `MutRc` pointer) plus the type
argument list.  The closure signature's `ir` adapter cell is backend
bookkeeping and is omitted.  Constructor order follows the Rust
declaration order, which `discrim` relies on. -/
inductive GirType where
  | any
  | none
  | null
  | bool
  | i8
  | i16
  | i32
  | i64
  | u8
  | u16
  | u32
  | u64
  | f32
  | f64
  | function (tyRef : Nat) (args : List GirType)
  | closure (params : List GirType) (ret : GirType)
  | closureCaptured (caps : List LocalVar)
  | adt (tyRef : Nat) (args : List GirType)
  | nullable (inner : GirType)
  | rawPtr (inner : GirType)
  | var (index : Nat) (name : String) (bound : TVBound)
  | type' (inner : GirType)

/-- A local variable (gir-nodes `LocalVariable`): name, type, mutability. -/
inductive LocalVar where
  | mk (name : String) (ty : GirType) (mutable : Bool)

/-- Bound of a type variable (gir-nodes `TypeParameterBound`). -/
inductive TVBound where
  | interface (iface : GirType)
  | marker (b : BoundMarker)

end

/-- The type of a local variable. -/
def LocalVar.ty : LocalVar → GirType
  | .mk _ t _ => t

/-- Position of a `Type` variant in the Rust enum declaration order;
stands for `std::mem::discriminant`. -/
def GirType.discrim : GirType → Nat
  | .any => 0
  | .none => 1
  | .null => 2
  | .bool => 3
  | .i8 => 4
  | .i16 => 5
  | .i32 => 6
  | .i64 => 7
  | .u8 => 8
  | .u16 => 9
  | .u32 => 10
  | .u64 => 11
  | .f32 => 12
  | .f64 => 13
  | .function _ _ => 14
  | .closure _ _ => 15
  | .closureCaptured _ => 16
  | .adt _ _ => 17
  | .nullable _ => 18
  | .rawPtr _ => 19
  | .var _ _ _ => 20
  | .type' _ => 21

mutual

/-- `Type::equal(&self, other, strict)` (gir-nodes/src/types.rs).
The `strict` flag only governs the two `Any` arms; every recursive
comparison goes through `==`, i.e. `equal` with `strict = true`.
Nominal instances compare by pointer identity of the declaration
(`tyRef` equality) and element-wise argument equality; `Variable`
compares by `index` alone; the fall-through arm compares
discriminants. -/
def GirType.equal (a b : GirType) (strict : Bool) : Bool :=
  match a, b with
  | .any, _ => !strict
  | _, .any => !strict
  | .function r1 a1, .function r2 a2 => r1 == r2 && argsEq a1 a2
  | .closure p1 r1, .closure p2 r2 => argsEq p1 p2 && GirType.equal r1 r2 true
  | .adt r1 a1, .adt r2 a2 => r1 == r2 && argsEq a1 a2
  | .nullable v, .nullable o => GirType.equal v o true
  | .type' v, .type' o => GirType.equal v o true
  | .var i1 _ _, .var i2 _ _ => i1 == i2
  | .rawPtr p, .rawPtr o => GirType.equal p o true
  | a, b => a.discrim == b.discrim

/-- Element-wise strict equality of type argument vectors
(`Vec<Type> == Vec<Type>`, via `Type`'s `PartialEq`). -/
def argsEq : List GirType → List GirType → Bool
  | [], [] => true
  | x :: xs, y :: ys => GirType.equal x y true && argsEq xs ys
  | _, _ => false

end

/-- Is a type a `Variable` whose bound is the given builtin marker
(`Type::is_var_with_marker`)? -/
def GirType.is_var_with_marker (t : GirType) (m : BoundMarker) : Bool :=
  match t with
  | .var _ _ (.marker b) => m == b
  | _ => false

/-- `Type::is_signed_int`. -/
def GirType.is_signed_int (t : GirType) : Bool :=
  (match t with
   | .i8 | .i16 | .i32 | .i64 => true
   | _ => false) || t.is_var_with_marker .signedInt

/-- `Type::is_unsigned_int`. -/
def GirType.is_unsigned_int (t : GirType) : Bool :=
  (match t with
   | .u8 | .u16 | .u32 | .u64 => true
   | _ => false) || t.is_var_with_marker .unsignedInt

/-- `Type::is_bool` (derived `EnumIsA` getter: variant test). -/
def GirType.is_bool : GirType → Bool
  | .bool => true
  | _ => false

/-- `Type::is_none` (derived `EnumIsA` getter: variant test). -/
def GirType.is_none : GirType → Bool
  | .none => true
  | _ => false

/-- `Type::is_float`. -/
def GirType.is_float (t : GirType) : Bool :=
  (match t with
   | .f32 | .f64 => true
   | _ => false) || t.is_var_with_marker .float

/-- `Type::is_int`: signed or unsigned integer, `Bool`, or an
`Integer`-bounded variable. -/
def GirType.is_int (t : GirType) : Bool :=
  t.is_signed_int || t.is_unsigned_int || t.is_bool
    || t.is_var_with_marker .integer

/-- `Type::is_number`. -/
def GirType.is_number (t : GirType) : Bool :=
  t.is_int || t.is_float || t.is_var_with_marker .number

/-- `Type::is_primitive`. -/
def GirType.is_primitive (t : GirType) : Bool :=
  t.is_none || t.is_number

/-- A token fed to the hasher.  Rust's `Hasher` consumes integers and
byte strings; a hash stream models the exact sequence of data a value
feeds to the hasher, so two values hash identically for every hasher
exactly when their streams are equal. -/
inductive HashTok where
  | nat (n : Nat)
  | str (s : String)
  deriving DecidableEq, Repr

/-- A single type parameter on a declaration (gir-nodes
`TypeParameter`). -/
structure TypeParameter where
  name : String
  index : Nat
  bound : TVBound

/-- The kind of an ADT (`ADTType` of gir/nodes/declaration.rs, the
variant shape also used by the crates resolver): class, interface,
enum, or enum case with a parent link (a declaration reference, since
the Rust code compares parents with `Rc::ptr_eq`). -/
inductive ADTKind where
  | classKind (external : Bool)
  | interfaceKind
  | enumKind
  | enumCaseKind (parent : Nat) (simple : Bool)

/-- Heap content of one declaration (the borrowed fields of a
`MutRc<ADT>` / `MutRc<Function>` that the embedded code reads): its
name, its type parameters, and its ADT kind. -/
structure DeclInfo where
  name : String
  typeParams : List TypeParameter
  kind : ADTKind

/-- The declaration heap: `Rc` pointers are indices into it. -/
def Heap : Type := Nat → DeclInfo

mutual

/-- The data `impl Hash for Type` (gir-nodes/src/types.rs) feeds to the
hasher: nominal instances hash their declaration's name only; the
`Type`/`RawPtr`/`Nullable` wrappers hash their inner type; closures hash
each parameter then the return type; `ClosureCaptured` hashes each
captured local's type; variables hash their index; the remaining
variants hash their discriminant. -/
def hashStream (heap : Heap) : GirType → List HashTok
  | .function r _ => [.str (heap r).name]
  | .adt r _ => [.str (heap r).name]
  | .type' v => hashStream heap v
  | .rawPtr v => hashStream heap v
  | .nullable v => hashStream heap v
  | .closure ps ret => hashStreamList heap ps ++ hashStream heap ret
  | .closureCaptured caps => hashStreamCaps heap caps
  | .var i _ _ => [.nat i]
  | t => [.nat t.discrim]

/-- Hash stream of a list of types, in order. -/
def hashStreamList (heap : Heap) : List GirType → List HashTok
  | [] => []
  | t :: ts => hashStream heap t ++ hashStreamList heap ts

/-- Hash stream of a captured-variable list: each local's type. -/
def hashStreamCaps (heap : Heap) : List LocalVar → List HashTok
  | [] => []
  | .mk _ ty _ :: ls => hashStream heap ty ++ hashStreamCaps heap ls

end

mutual

/-- No `ClosureCaptured` variant occurs anywhere in the type. -/
def noCC : GirType → Bool
  | .closureCaptured _ => false
  | .function _ a => noCCList a
  | .adt _ a => noCCList a
  | .closure p r => noCCList p && noCC r
  | .nullable t => noCC t
  | .rawPtr t => noCC t
  | .type' t => noCC t
  | _ => true

/-- `noCC` on every element of a list. -/
def noCCList : List GirType → Bool
  | [] => true
  | t :: ts => noCC t && noCCList ts

end

/-- An `Instance<T>` (gir-nodes/src/types.rs): a declaration reference
paired with its type argument list. -/
structure Instc where
  tyRef : Nat
  args : List GirType

/-- `impl PartialEq for Instance<T>`: `Rc::ptr_eq` on the declaration
plus element-wise equality of the argument vectors. -/
def instEq (a b : Instc) : Bool :=
  a.tyRef == b.tyRef && argsEq a.args b.args

/-- The data `impl Hash for Instance<T>` feeds to the hasher: the
borrowed declaration's hash, then the argument vector if it is
non-empty.  The declaration's own `Hash`. Modelled from the spec: the
crates `ADT`/`Function` declarations (gir-nodes/src/declaration.rs) are
not under src/; the spec (§4.1) prescribes hashing the declaration name
for nominal types.  A `Vec<Type>` hashes its length followed by its
elements. -/
def instHashStream (heap : Heap) (i : Instc) : List HashTok :=
  HashTok.str (heap i.tyRef).name ::
    (if i.args.isEmpty then [] else HashTok.nat i.args.length :: hashStreamList heap i.args)

/-- `Type::type_args` (gir-nodes/src/types.rs): the argument vector of
the outermost instance; `Type`/`RawPtr`/`Nullable` recurse inward, and a
variable bounded by an interface exposes the interface's arguments. -/
def typeArgs : GirType → Option (List GirType)
  | .function _ a => some a
  | .adt _ a => some a
  | .type' t => typeArgs t
  | .rawPtr t => typeArgs t
  | .nullable t => typeArgs t
  | .var _ _ (.interface iface) => typeArgs iface
  | _ => Option.none

/-- `Type::type_params`: the declaration's parameter list, reached the
same way as `type_args`. -/
def typeParams (heap : Heap) : GirType → Option (List TypeParameter)
  | .function r _ => some (heap r).typeParams
  | .adt r _ => some (heap r).typeParams
  | .type' t => typeParams heap t
  | .rawPtr t => typeParams heap t
  | .nullable t => typeParams heap t
  | .var _ _ (.interface iface) => typeParams heap iface
  | _ => Option.none

/-- `Type::set_type_args`: replace the outermost instance's arguments.
The Rust method mutates in place and returns a success flag; here
`some` carries the updated type and `Option.none` is the `false`
(no-op) outcome.  Note that unlike `type_args` it does not descend into
variable bounds. -/
def setTypeArgs : GirType → List GirType → Option GirType
  | .function r _, a => some (.function r a)
  | .adt r _, a => some (.adt r a)
  | .type' t, a => (setTypeArgs t a).map .type'
  | .rawPtr t, a => (setTypeArgs t a).map .rawPtr
  | .nullable t, a => (setTypeArgs t a).map .nullable
  | _, _ => Option.none

/-- The substitution step of `Type::resolve` (its first `match`): a
variable, also under a one-level `RawPtr`/`Nullable`, whose index is in
range is replaced by the corresponding argument; everything else is
cloned unchanged. -/
def substVar (t : GirType) (args : List GirType) : GirType :=
  match t with
  | .var i _ _ => if i < args.length then args.getD i .any else t
  | .rawPtr (.var i n b) =>
    if i < args.length then .rawPtr (args.getD i .any) else .rawPtr (.var i n b)
  | .nullable (.var i n b) =>
    if i < args.length then .nullable (args.getD i .any) else .nullable (.var i n b)
  | t => t

/-- `Type::resolve(&self, args)` (gir-nodes/src/types.rs).  Step one
substitutes type variables (`substVar`); step two re-resolves the
arguments of the substituted type; step three attaches `args` verbatim
when the original type is an unspecialized instance of a parameterized
declaration.  The Rust recursion in step two runs on the arguments of
the *substituted* type and therefore has no structural termination
measure (it diverges on self-referential argument lists), so the
embedding carries explicit fuel; any fuel of at least the type's size
is enough on variable-free input.  Both `set_type_args` results are
discarded on failure, exactly as the Rust code ignores the returned
flags. -/
def resolveF (heap : Heap) : Nat → GirType → List GirType → GirType
  | 0, t, _ => t
  | fuel + 1, t, args =>
    let ty := substVar t args
    let ty2 :=
      match typeArgs ty with
      | some a => (setTypeArgs ty (a.map (fun x => resolveF heap fuel x args))).getD ty
      | Option.none => ty
    if ((typeArgs t).map List.isEmpty).getD false
        && ((typeParams heap t).map (fun p => !p.isEmpty)).getD false
    then (setTypeArgs ty2 args).getD ty2
    else ty2

mutual

/-- No `Variable` occurs anywhere in the type. -/
def noVar : GirType → Bool
  | .var _ _ _ => false
  | .function _ a => noVarList a
  | .adt _ a => noVarList a
  | .closure p r => noVarList p && noVar r
  | .closureCaptured caps => noVarCaps caps
  | .nullable t => noVar t
  | .rawPtr t => noVar t
  | .type' t => noVar t
  | _ => true

/-- `noVar` on every element of a list. -/
def noVarList : List GirType → Bool
  | [] => true
  | t :: ts => noVar t && noVarList ts

/-- `noVar` on the type of every captured local. -/
def noVarCaps : List LocalVar → Bool
  | [] => true
  | .mk _ ty _ :: ls => noVar ty && noVarCaps ls

end

mutual

/-- No unspecialized instance of a parameterized declaration (a
"prototype" in spec terms) occurs in a position `resolve` rewrites: a
`function`/`adt` with an empty argument list whose declaration has
parameters, reachable through instance arguments or the
`Nullable`/`RawPtr`/`Type` wrappers. -/
def noProto (heap : Heap) : GirType → Bool
  | .function r a => (!a.isEmpty || (heap r).typeParams.isEmpty) && noProtoList heap a
  | .adt r a => (!a.isEmpty || (heap r).typeParams.isEmpty) && noProtoList heap a
  | .nullable t => noProto heap t
  | .rawPtr t => noProto heap t
  | .type' t => noProto heap t
  | _ => true

/-- `noProto` on every element of a list. -/
def noProtoList (heap : Heap) : List GirType → Bool
  | [] => true
  | t :: ts => noProto heap t && noProtoList heap ts

end

mutual

/-- No `Any` occurs in a position strict equality recurses into
(instance arguments, closure signatures, and the
`Nullable`/`RawPtr`/`Type` wrappers); strict equality is reflexive
exactly on such types, because `equal` makes `Any` unequal to
everything when `strict` holds. -/
def noAny : GirType → Bool
  | .any => false
  | .function _ a => noAnyList a
  | .adt _ a => noAnyList a
  | .closure p r => noAnyList p && noAny r
  | .nullable t => noAny t
  | .rawPtr t => noAny t
  | .type' t => noAny t
  | _ => true

/-- `noAny` on every element of a list. -/
def noAnyList : List GirType → Bool
  | [] => true
  | t :: ts => noAny t && noAnyList ts

end

/-- GIR expressions, as far as the resolver manipulates them.  Modelled
from the spec: `Expr` lives in gir-nodes/src/expression.rs, which is not
under src/; the spec (§4.6) states that every IR expression has a known
`get_type()` and that casts are typed nodes, and the resolver source
builds them with `Expr::cast(value, target_type, cast_kind)`.  `lit ty`
stands for any non-cast expression whose `get_type()` is `ty`. -/
inductive Expr where
  | lit (ty : GirType)
  | cast (inner : Expr) (tgt : GirType) (kind : CastType)

/-- `Expr::get_type()`: a cast's type is its target type. -/
def Expr.getType : Expr → GirType
  | .lit ty => ty
  | .cast _ tgt _ => tgt

/-- The `can_cast_type` policy the resolver queries.  Its table lives in
a gir-generator source that is not under src/, so the resolver embedding
is parameterized over it. -/
def CanCast : Type := GirType → GirType → Option CastType

/-- `GIRGenerator::try_cast` (gir-generator/src/resolver.rs): if the
value's type already equals the target under *loose* equality
(`equal(ty, false)`), the value is returned unchanged with success;
otherwise `can_cast_type` is consulted and, given a kind, the value is
wrapped in a typed cast node, else the original value is returned with
failure. -/
def tryCast (cc : CanCast) (value : Expr) (ty : GirType) : Expr × Bool :=
  if value.getType.equal ty false then (value, true)
  else
    match cc value.getType ty with
    | some kind => (Expr.cast value ty kind, true)
    | Option.none => (value, false)

/-- `Type::try_adt_nullable`: the ADT instance inside a type, looking
through `Nullable`. -/
def tryAdtNullable : GirType → Option (Nat × List GirType)
  | .adt r a => some (r, a)
  | .nullable t => tryAdtNullable t
  | _ => Option.none

/-- The guard `matches!(other, Type::None | Type::Null | Type::Nullable(_))`
of the null-widening arm of `try_unify_type`. -/
def isWidenBlocked : GirType → Bool
  | .none => true
  | .null => true
  | .nullable _ => true
  | _ => false

/-- The generic cast-probing tail of `try_unify_type`: try casting the
left expression to the right type, then the right to the left type, and
return the first success, else failure. -/
def probeCast (cc : CanCast) (l r : Expr) : Option GirType × Expr × Expr :=
  let lt := l.getType
  let rt := r.getType
  let c1 := tryCast cc l rt
  if c1.2 then (some rt, c1.1, r)
  else
    let c2 := tryCast cc r lt
    if c2.2 then (some lt, c1.1, c2.1) else (Option.none, c1.1, c2.1)

/-- The null-widening step of `try_unify_type` followed by cast probing:
when exactly one side has type `Null` and the other side's type is
neither `None` nor `Null` nor already `Nullable`, both sides are cast to
the nullable variant of the other type. -/
def unifyRest (cc : CanCast) (l r : Expr) : Option GirType × Expr × Expr :=
  match l.getType, r.getType with
  | .null, other =>
    if !isWidenBlocked other then
      (some (.nullable other), .cast l (.nullable other) .toNullable,
        .cast r (.nullable other) .toNullable)
    else probeCast cc l r
  | other, .null =>
    if !isWidenBlocked other then
      (some (.nullable other), .cast l (.nullable other) .toNullable,
        .cast r (.nullable other) .toNullable)
    else probeCast cc l r
  | _, _ => probeCast cc l r

/-- `GIRGenerator::try_unify_type` (gir-generator/src/resolver.rs).
Step order as in the source: strict type equality first; then the
enum-case pair whose declarations' kinds are `EnumCase` with
pointer-equal parents and equal argument lists, which bitcasts both
sides to the parent instance (nullable when either side was) and
re-runs unification; then null widening; then generic cast probing.
The Rust recursion re-enters the whole function, so the embedding
carries fuel; depth two is enough because the recursive call sees two
equal types. -/
def unifyF (heap : Heap) (cc : CanCast) : Nat → Expr → Expr → Option GirType × Expr × Expr
  | 0, l, r => (Option.none, l, r)
  | fuel + 1, l, r =>
    let lt := l.getType
    let rt := r.getType
    if lt.equal rt true then (some lt, l, r)
    else
      match tryAdtNullable lt, tryAdtNullable rt with
      | some (r1, a1), some (r2, a2) =>
        (match (heap r1).kind, (heap r2).kind with
         | .enumCaseKind p1 _, .enumCaseKind p2 _ =>
           if p1 == p2 && argsEq a1 a2 then
             let ty :=
               match lt, rt with
               | .adt _ _, .adt _ _ => GirType.adt p1 a1
               | _, _ => GirType.nullable (.adt p1 a1)
             unifyF heap cc fuel (.cast l ty .bitcast) (.cast r ty .bitcast)
           else unifyRest cc l r
         | _, _ => unifyRest cc l r)
      | _, _ => unifyRest cc l r

/-- Variant test for `Adt`. -/
def GirType.is_adt : GirType → Bool
  | .adt _ _ => true
  | _ => false

/-- The condition under which `try_unify_type` takes the null-widening
path on types `lt` and `rt`: the types differ, exactly one side is
`Null`, and the other passes the widening guard. -/
def NullPathP (lt rt : GirType) : Prop :=
  (lt = .null ∧ isWidenBlocked rt = false) ∨ (rt = .null ∧ isWidenBlocked lt = false)

/-- The condition under which `try_unify_type` takes the
enum-case-to-parent path on types `lt` and `rt`: unequal types, both
carrying (possibly nullable) ADT instances whose declarations are enum
cases of a pointer-equal parent with element-wise equal argument lists.
The two self-equality conditions on the argument lists make the re-run
of unification on the two parent instances stop at strict equality, as
it does on every argument list free of `Any` (strict equality is
irreflexive at `Any`). -/
def EnumPathP (heap : Heap) (lt rt : GirType) : Prop :=
  GirType.equal lt rt true = false ∧
    ∃ (r1 r2 p : Nat) (a1 a2 : List GirType) (s1 s2 : Bool),
      tryAdtNullable lt = some (r1, a1) ∧ tryAdtNullable rt = some (r2, a2) ∧
        (heap r1).kind = .enumCaseKind p s1 ∧ (heap r2).kind = .enumCaseKind p s2 ∧
        argsEq a1 a2 = true ∧ argsEq a1 a1 = true ∧ argsEq a2 a2 = true

/-- The AST type shapes (`TypeE` of crates/ast/src/types.rs): plain
identifier, nullable `T?`, raw pointer `*T`, closure signature with
optional return, and generic instantiation. -/
inductive AstType where
  | ident (name : String)
  | nullable (inner : AstType)
  | rawPtr (inner : AstType)
  | closure (params : List AstType) (retType : Option AstType)
  | generic (ident : String) (types : List AstType)

/-- Error codes the resolver raises (`GErr` of the error crate, as used
by gir-generator/src/resolver.rs; source positions are dropped). -/
inductive GErr where
  | e300 (name : String)
  | e301
  | e302
  | e304
  | e321
  deriving DecidableEq, Repr

/-- A module-level declaration as found by `Module::find_decl`
(`Declaration`: a function or an ADT). -/
inductive Decl where
  | funcDecl (r : Nat)
  | adtDecl (r : Nat)

/-- `Declaration::to_type`: the corresponding type with no type
arguments. -/
def Decl.toType : Decl → GirType
  | .funcDecl r => .function r []
  | .adtDecl r => .adt r []

/-- The resolver's lookup context: the current type-parameter scope
(`self.type_params`) and the current module's declaration table
(`self.module.borrow().find_decl`). -/
structure Env where
  typeParams : Option (List TypeParameter)
  decls : String → Option Decl

/-- `GIRGenerator::search_type_param`: first type parameter with the
given name, as a `Variable` (`TypeVariable::from_param`). -/
def searchTypeParam (env : Env) (name : String) : Option GirType :=
  match env.typeParams with
  | some ps =>
    match ps.find? (fun p => p.name == name) with
    | some p => some (.var p.index p.name p.bound)
    | Option.none => Option.none
  | Option.none => Option.none

/-- `GIRGenerator::symbol`: primitive names first (pointer-width
aliases resolved for a 64-bit target, matching the compiled `cfg`),
then the module's declaration table. -/
def symbol (env : Env) (name : String) : Option GirType :=
  match name with
  | "None" => some .none
  | "bool" => some .bool
  | "i8" => some .i8
  | "i16" => some .i16
  | "i32" => some .i32
  | "i64" => some .i64
  | "isize" => some .i64
  | "u8" => some .u8
  | "u16" => some .u16
  | "u32" => some .u32
  | "u64" => some .u64
  | "usize" => some .u64
  | "f32" => some .f32
  | "f64" => some .f64
  | _ => (env.decls name).map Decl.toType

/-- `GIRGenerator::check_args_count`: E321 unless the argument count
equals the declaration's parameter count (both defaulting to zero). -/
def checkArgsCount (heap : Heap) (ty : GirType) : Except GErr Unit :=
  let paramCount := ((typeParams heap ty).map List.length).getD 0
  let argsCount := ((typeArgs ty).map List.length).getD 0
  if paramCount == argsCount then .ok () else .error .e321

/-- Variant test `Type::is_function`. -/
def GirType.is_function : GirType → Bool
  | .function _ _ => true
  | _ => false

mutual

/-- `GIRGenerator::find_type_(ast, allow_fn)`
(gir-generator/src/resolver.rs).  Identifiers search the type-parameter
scope, then the symbol table (`E300` when absent), check the argument
count (`E321`), and reject bare function types in value position
(`E301`).  Nullable types reject an already-nullable inner type
(`E302`).  Closures default a missing return type to `None`.  Generic
shapes resolve the base symbol and attach resolved arguments (`E304` on
a non-instance base); `validate_type_args` only accumulates diagnostics
out of band and does not affect the returned type, so it is not
modelled.  All recursive resolutions go through `find_type`, i.e. with
`allow_fn = false`. -/
def findTypeA (heap : Heap) (env : Env) (allowFn : Bool) : AstType → Except GErr GirType
  | .ident name =>
    match (searchTypeParam env name).orElse (fun _ => symbol env name) with
    | Option.none => .error (.e300 name)
    | some ty =>
      match checkArgsCount heap ty with
      | .error e => .error e
      | .ok _ => if ty.is_function && !allowFn then .error .e301 else .ok ty
  | .nullable inner =>
    match findTypeA heap env false inner with
    | .error e => .error e
    | .ok t =>
      match t with
      | .nullable _ => .error .e302
      | t => .ok (.nullable t)
  | .rawPtr inner => (findTypeA heap env false inner).map .rawPtr
  | .closure params retType =>
    match findTypeListA heap env params with
    | .error e => .error e
    | .ok ps =>
      match findRetA heap env retType with
      | .error e => .error e
      | .ok r => .ok (.closure ps r)
  | .generic ident types =>
    match symbol env ident with
    | Option.none => .error (.e300 ident)
    | some ty =>
      match findTypeListA heap env types with
      | .error e => .error e
      | .ok args =>
        if args.isEmpty then .ok ty
        else
          match setTypeArgs ty args with
          | Option.none => .error .e304
          | some ty2 => .ok ty2

/-- Resolution of a closure's optional return type
(`ret_type.as_ref().map_or(Ok(Type::None), |t| self.find_type(t))`). -/
def findRetA (heap : Heap) (env : Env) : Option AstType → Except GErr GirType
  | Option.none => .ok .none
  | some rt => findTypeA heap env false rt

/-- Resolution of a list of AST types, stopping at the first error
(`collect::<Res<Vec<_>>>`). -/
def findTypeListA (heap : Heap) (env : Env) : List AstType → Except GErr (List GirType)
  | [] => .ok []
  | t :: ts =>
    match findTypeA heap env false t with
    | .error e => .error e
    | .ok x =>
      match findTypeListA heap env ts with
      | .error e => .error e
      | .ok xs => .ok (x :: xs)

end

/-- `GIRGenerator::find_type`: `find_type_` with `allow_fn = false`. -/
def findType (heap : Heap) (env : Env) (ast : AstType) : Except GErr GirType :=
  findTypeA heap env false ast

/-- Variant test for `Nullable`. -/
def GirType.is_nullable : GirType → Bool
  | .nullable _ => true
  | _ => false

end Gelix

namespace OldGir

/-!
Embedding of the field pass of the older GIR generation
(src/gir/generator/passes/fields.rs building on
src/gir/nodes/declaration.rs).  The pass is generic in the
collaborators that are not under src/: `findType` stands for the
resolver outcome on an AST type annotation (its error path only logs
and is orthogonal to the claims), `lower` for expression lowering, and
`getType` for `Expr::get_type` of a lowered initializer.
-/

/-- An AST ADT member (`ADTMember` of src/ast/declaration.rs): name,
mutability, optional declared type, optional initializer. -/
structure Member (τ ε : Type) where
  name : String
  mutable : Bool
  ty : Option τ
  initializer : Option ε

/-- A GIR field (`Field` of src/gir/nodes/declaration.rs): name,
mutability, type (declared or inferred), lowered initializer, and dense
index in insertion order. -/
structure FieldG (γ δ : Type) where
  name : String
  mutable : Bool
  ty : γ
  initializer : Option δ
  index : Nat

/-- `IndexMap::insert` on an insertion-ordered association list: an
existing key keeps its position and gets the new value, a fresh key is
appended. -/
def insertIM {β : Type} : List (String × β) → String → β → List (String × β)
  | [], k, v => [(k, v)]
  | (k', v') :: rest, k, v =>
    if k' == k then (k', v) :: rest else (k', v') :: insertIM rest k v

/-- The type computed for one member by `build_adt`: the lowered
initializer's type when an initializer exists
(`initializer.as_ref().map_or_else(.., |i| Ok(i.get_type()))`),
otherwise the resolution of the declared type
(`find_type(field.ty.as_ref().unwrap())`); `Option.none` models the
`unwrap` panic when a member has neither. -/
def memberTy {τ ε γ δ : Type} (lower : ε → δ) (getType : δ → γ) (findType : τ → γ)
    (m : Member τ ε) : Option γ :=
  match m.initializer.map lower with
  | some i => some (getType i)
  | Option.none => m.ty.map findType

/-- The loop body of `GIRGenerator::build_adt`
(src/gir/generator/passes/fields.rs): members are enumerated in
declaration order, each producing a `Field` with the enumeration index,
inserted into the insertion-ordered field map (a duplicate name only
logs an error and replaces the map entry in place). -/
def buildFields {τ ε γ δ : Type} (lower : ε → δ) (getType : δ → γ) (findType : τ → γ) :
    Nat → List (Member τ ε) → List (String × FieldG γ δ) →
    Option (List (String × FieldG γ δ))
  | _, [], acc => some acc
  | i, m :: rest, acc =>
    match memberTy lower getType findType m with
    | Option.none => Option.none
    | some ty =>
      buildFields lower getType findType (i + 1) rest
        (insertIM acc m.name ⟨m.name, m.mutable, ty, m.initializer.map lower, i⟩)

/-- `GIRGenerator::build_adt` restricted to its field-construction
effect: the final insertion-ordered field map of the ADT. -/
def buildAdt {τ ε γ δ : Type} (lower : ε → δ) (getType : δ → γ) (findType : τ → γ)
    (members : List (Member τ ε)) : Option (List (String × FieldG γ δ)) :=
  buildFields lower getType findType 0 members []

/-- The member list of an `EnumCase` AST.  Modelled from the spec: the
parser that builds enum-case ASTs is not under src/, but
src/ast/declaration.rs documents `EnumCase.variables` with
"Includes all parent members", and the spec (§3) states that an
EnumCase's fields include the parent's fields first; so a case's member
list is the parent's member list followed by the case's own members. -/
def enumCaseMembers {τ ε : Type} (parentMembers ownMembers : List (Member τ ε)) :
    List (Member τ ε) :=
  parentMembers ++ ownMembers

/-- Names of a member list, in order. -/
def memberNames {τ ε : Type} (ms : List (Member τ ε)) : List String :=
  ms.map Member.name

/-- The field entries `buildFields` produces from a duplicate-free
member list starting at a given index: one entry per member, in order,
with consecutive indices; `Option.none` propagates the panic on a
member with neither type nor initializer. -/
def fieldList {τ ε γ δ : Type} (lower : ε → δ) (getType : δ → γ) (findType : τ → γ) :
    Nat → List (Member τ ε) → Option (List (String × FieldG γ δ))
  | _, [] => some []
  | i, m :: rest =>
    match memberTy lower getType findType m with
    | Option.none => Option.none
    | some ty =>
      (fieldList lower getType findType (i + 1) rest).map
        ((m.name, ⟨m.name, m.mutable, ty, m.initializer.map lower, i⟩) :: ·)

end OldGir

namespace Gelix

/-- A trivial declaration heap for concrete evaluations. -/
def heap0 : Heap := fun _ => ⟨"", [], .classKind false⟩

/-- A heap whose declaration 0 is a class `Box` with one type
parameter `T`. -/
def heapBox : Heap := fun _ => ⟨"Box", [⟨"T", 0, .marker .unbounded⟩], .classKind false⟩

/-- A heap with an enum declaration 0 named `E` and two of its cases at
1 and 2. -/
def heapEnum : Heap := fun n =>
  if n == 1 then ⟨"A", [], .enumCaseKind 0 true⟩
  else if n == 2 then ⟨"B", [], .enumCaseKind 0 true⟩
  else ⟨"E", [], .enumKind⟩

/-- A cast policy that never offers a cast. -/
def ccNone : CanCast := fun _ _ => Option.none

/-- A lookup context with no type parameters and no declarations. -/
def env0 : Env := ⟨Option.none, fun _ => Option.none⟩

end Gelix

namespace Gelix

/-- Unfolding of `equal` on two `function` instances. -/
theorem equal_fn_fn (r1 r2 : Nat) (a1 a2 : List GirType) (s : Bool) :
    GirType.equal (.function r1 a1) (.function r2 a2) s = (r1 == r2 && argsEq a1 a2) := rfl

/-- Unfolding of `equal` on two closures. -/
theorem equal_cl_cl (p1 p2 : List GirType) (r1 r2 : GirType) (s : Bool) :
    GirType.equal (.closure p1 r1) (.closure p2 r2) s
      = (argsEq p1 p2 && GirType.equal r1 r2 true) := rfl

/-- Unfolding of `equal` on two ADT instances. -/
theorem equal_adt_adt (r1 r2 : Nat) (a1 a2 : List GirType) (s : Bool) :
    GirType.equal (.adt r1 a1) (.adt r2 a2) s = (r1 == r2 && argsEq a1 a2) := rfl

/-- Unfolding of `equal` on two nullables. -/
theorem equal_nul_nul (v o : GirType) (s : Bool) :
    GirType.equal (.nullable v) (.nullable o) s = GirType.equal v o true := rfl

/-- Unfolding of `equal` on two static types. -/
theorem equal_ty_ty (v o : GirType) (s : Bool) :
    GirType.equal (.type' v) (.type' o) s = GirType.equal v o true := rfl

/-- Unfolding of `equal` on two variables. -/
theorem equal_var_var (i1 i2 : Nat) (n1 n2 : String) (b1 b2 : TVBound) (s : Bool) :
    GirType.equal (.var i1 n1 b1) (.var i2 n2 b2) s = (i1 == i2) := rfl

/-- Unfolding of `equal` on two raw pointers. -/
theorem equal_ptr_ptr (p o : GirType) (s : Bool) :
    GirType.equal (.rawPtr p) (.rawPtr o) s = GirType.equal p o true := rfl

/-- Unfolding of `equal` with `Any` on the left. -/
theorem equal_any_left (b : GirType) (s : Bool) : GirType.equal .any b s = !s := by
  cases b <;> rfl

/-- Unfolding of `equal` with `Any` on the right. -/
theorem equal_any_right (a : GirType) (s : Bool) : GirType.equal a .any s = !s := by
  cases a <;> rfl

/-- Unfolding of `argsEq` on two cons cells. -/
theorem argsEq_cons (x y : GirType) (xs ys : List GirType) :
    argsEq (x :: xs) (y :: ys) = (GirType.equal x y true && argsEq xs ys) := rfl

mutual

/-- Strict equality is reflexive on types without `Any` in
equality-relevant positions. -/
theorem equal_refl_of_noAny : ∀ (t : GirType), noAny t = true → GirType.equal t t true = true
  | .any, h => by exact Bool.noConfusion h
  | .none, _ => by decide
  | .null, _ => by decide
  | .bool, _ => by decide
  | .i8, _ => by decide
  | .i16, _ => by decide
  | .i32, _ => by decide
  | .i64, _ => by decide
  | .u8, _ => by decide
  | .u16, _ => by decide
  | .u32, _ => by decide
  | .u64, _ => by decide
  | .f32, _ => by decide
  | .f64, _ => by decide
  | .function r a, h => by
    rw [equal_fn_fn]
    simp only [beq_self_eq_true, Bool.true_and]
    exact argsEq_refl_of_noAny a h
  | .closure p r, h => by
    have h' : noAnyList p = true ∧ noAny r = true := by
      have : (noAnyList p && noAny r) = true := h
      exact Bool.and_eq_true_iff.mp this
    rw [equal_cl_cl]
    rw [argsEq_refl_of_noAny p h'.1, equal_refl_of_noAny r h'.2]
    rfl
  | .closureCaptured caps, _ => by rfl
  | .adt r a, h => by
    rw [equal_adt_adt]
    simp only [beq_self_eq_true, Bool.true_and]
    exact argsEq_refl_of_noAny a h
  | .nullable t, h => by
    rw [equal_nul_nul]
    exact equal_refl_of_noAny t h
  | .rawPtr t, h => by
    rw [equal_ptr_ptr]
    exact equal_refl_of_noAny t h
  | .var i n b, _ => by
    rw [equal_var_var]
    exact beq_self_eq_true i
  | .type' t, h => by
    rw [equal_ty_ty]
    exact equal_refl_of_noAny t h

/-- Element-wise strict equality is reflexive on `Any`-free lists. -/
theorem argsEq_refl_of_noAny : ∀ (ts : List GirType), noAnyList ts = true → argsEq ts ts = true
  | [], _ => rfl
  | t :: ts, h => by
    have h' : noAny t = true ∧ noAnyList ts = true := by
      have : (noAny t && noAnyList ts) = true := h
      exact Bool.and_eq_true_iff.mp this
    rw [argsEq_cons, equal_refl_of_noAny t h'.1, argsEq_refl_of_noAny ts h'.2]
    rfl

end

mutual

/-- Strictly equal types feed identical data to the hasher, provided no
`ClosureCaptured` occurs in the left type: for those, `equal` degrades
to a discriminant check while the hash covers the captured types. -/
theorem hash_cong :
    ∀ (heap : Heap) (a b : GirType), noCC a = true → GirType.equal a b true = true →
      hashStream heap a = hashStream heap b
  | heap, .any, b, _, heq => by cases b <;> exact Bool.noConfusion heq
  | heap, .none, b, _, heq => by cases b <;> first | rfl | exact Bool.noConfusion heq
  | heap, .null, b, _, heq => by cases b <;> first | rfl | exact Bool.noConfusion heq
  | heap, .bool, b, _, heq => by cases b <;> first | rfl | exact Bool.noConfusion heq
  | heap, .i8, b, _, heq => by cases b <;> first | rfl | exact Bool.noConfusion heq
  | heap, .i16, b, _, heq => by cases b <;> first | rfl | exact Bool.noConfusion heq
  | heap, .i32, b, _, heq => by cases b <;> first | rfl | exact Bool.noConfusion heq
  | heap, .i64, b, _, heq => by cases b <;> first | rfl | exact Bool.noConfusion heq
  | heap, .u8, b, _, heq => by cases b <;> first | rfl | exact Bool.noConfusion heq
  | heap, .u16, b, _, heq => by cases b <;> first | rfl | exact Bool.noConfusion heq
  | heap, .u32, b, _, heq => by cases b <;> first | rfl | exact Bool.noConfusion heq
  | heap, .u64, b, _, heq => by cases b <;> first | rfl | exact Bool.noConfusion heq
  | heap, .f32, b, _, heq => by cases b <;> first | rfl | exact Bool.noConfusion heq
  | heap, .f64, b, _, heq => by cases b <;> first | rfl | exact Bool.noConfusion heq
  | heap, .closureCaptured caps, _, hcc, _ => Bool.noConfusion hcc
  | heap, .function r1 a1, b, _, heq => by
    cases b <;> try exact Bool.noConfusion heq
    case function r2 a2 =>
      have h2 : (r1 == r2 && argsEq a1 a2) = true := heq
      have hr : r1 = r2 := eq_of_beq (Bool.and_eq_true_iff.mp h2).1
      show [HashTok.str (heap r1).name] = [HashTok.str (heap r2).name]
      rw [hr]
  | heap, .adt r1 a1, b, _, heq => by
    cases b <;> try exact Bool.noConfusion heq
    case adt r2 a2 =>
      have h2 : (r1 == r2 && argsEq a1 a2) = true := heq
      have hr : r1 = r2 := eq_of_beq (Bool.and_eq_true_iff.mp h2).1
      show [HashTok.str (heap r1).name] = [HashTok.str (heap r2).name]
      rw [hr]
  | heap, .closure p1 r1, b, hcc, heq => by
    cases b <;> try exact Bool.noConfusion heq
    case closure p2 r2 =>
      have h2 : (argsEq p1 p2 && GirType.equal r1 r2 true) = true := heq
      have hc : (noCCList p1 && noCC r1) = true := hcc
      have he := Bool.and_eq_true_iff.mp h2
      have hcp := Bool.and_eq_true_iff.mp hc
      show hashStreamList heap p1 ++ hashStream heap r1
        = hashStreamList heap p2 ++ hashStream heap r2
      rw [hash_cong_list heap p1 p2 hcp.1 he.1, hash_cong heap r1 r2 hcp.2 he.2]
  | heap, .nullable v, b, hcc, heq => by
    cases b <;> try exact Bool.noConfusion heq
    case nullable o =>
      show hashStream heap v = hashStream heap o
      exact hash_cong heap v o hcc heq
  | heap, .rawPtr v, b, hcc, heq => by
    cases b <;> try exact Bool.noConfusion heq
    case rawPtr o =>
      show hashStream heap v = hashStream heap o
      exact hash_cong heap v o hcc heq
  | heap, .type' v, b, hcc, heq => by
    cases b <;> try exact Bool.noConfusion heq
    case type' o =>
      show hashStream heap v = hashStream heap o
      exact hash_cong heap v o hcc heq
  | heap, .var i1 n1 b1, b, _, heq => by
    cases b <;> try exact Bool.noConfusion heq
    case var i2 n2 b2 =>
      have h2 : (i1 == i2) = true := heq
      show [HashTok.nat i1] = [HashTok.nat i2]
      rw [eq_of_beq h2]

/-- List version of `hash_cong`. -/
theorem hash_cong_list :
    ∀ (heap : Heap) (xs ys : List GirType), noCCList xs = true → argsEq xs ys = true →
      hashStreamList heap xs = hashStreamList heap ys
  | _, [], [], _, _ => rfl
  | heap, x :: xs, y :: ys, hcc, heq => by
    have h2 : (GirType.equal x y true && argsEq xs ys) = true := heq
    have hc : (noCC x && noCCList xs) = true := hcc
    have he := Bool.and_eq_true_iff.mp h2
    have hcp := Bool.and_eq_true_iff.mp hc
    show hashStream heap x ++ hashStreamList heap xs
      = hashStream heap y ++ hashStreamList heap ys
    rw [hash_cong heap x y hcp.1 he.1, hash_cong_list heap xs ys hcp.2 he.2]
  | _, [], _ :: _, _, heq => Bool.noConfusion heq
  | _, _ :: _, [], _, heq => Bool.noConfusion heq

end

/-- Element-wise equal argument lists have equal length. -/
theorem argsEq_length : ∀ (xs ys : List GirType), argsEq xs ys = true → xs.length = ys.length
  | [], [], _ => rfl
  | x :: xs, y :: ys, h => by
    have h2 : (GirType.equal x y true && argsEq xs ys) = true := h
    simp only [List.length_cons]
    rw [argsEq_length xs ys (Bool.and_eq_true_iff.mp h2).2]
  | [], _ :: _, h => Bool.noConfusion h
  | _ :: _, [], h => Bool.noConfusion h

/-- C2, corrected, counterexample: two `ClosureCaptured` types with
different captured locals are strictly equal (`equal` falls through to
the discriminant comparison) yet feed different data to the hasher, so
`a == b` does not imply `hash(a) == hash(b)` on all of `Type`. -/
theorem claim2_counterexample :
    GirType.equal (.closureCaptured [.mk "x" .bool false]) (.closureCaptured []) true = true
      ∧ hashStream heap0 (.closureCaptured [.mk "x" .bool false])
          ≠ hashStream heap0 (.closureCaptured []) := by
  constructor
  · rfl
  · decide

/-- C2, amended: strict equality implies hasher-data equality for every
`Type` value with no `ClosureCaptured` subterm, and for every `Instance`
whose argument list has no `ClosureCaptured` subterm. -/
theorem claim2_amended (heap : Heap) (a b : GirType) (i j : Instc) :
    (noCC a = true → GirType.equal a b true = true →
      hashStream heap a = hashStream heap b)
    ∧ (noCCList i.args = true → instEq i j = true →
        instHashStream heap i = instHashStream heap j) := by
  refine ⟨fun hcc heq => hash_cong heap a b hcc heq, fun hcc heq => ?_⟩
  have h2 : (i.tyRef == j.tyRef && argsEq i.args j.args) = true := heq
  obtain ⟨hb, ha⟩ := Bool.and_eq_true_iff.mp h2
  have hr : i.tyRef = j.tyRef := eq_of_beq hb
  have hlen := argsEq_length _ _ ha
  have hE : i.args.isEmpty = j.args.isEmpty := by
    cases hx : i.args <;> cases hy : j.args <;> simp_all
  unfold instHashStream
  rw [hr, hlen, hE, hash_cong_list heap i.args j.args hcc ha]

/-- C2 witness: the amended consistency at concrete equal inputs. -/
theorem claim2_amended_witness :
    hashStream heap0 (.nullable (.adt 0 [.bool])) = hashStream heap0 (.nullable (.adt 0 [.bool]))
      ∧ instHashStream heap0 ⟨0, [.bool]⟩ = instHashStream heap0 ⟨0, [.bool]⟩ :=
  ⟨(claim2_amended heap0 (.nullable (.adt 0 [.bool])) (.nullable (.adt 0 [.bool]))
      ⟨0, [.bool]⟩ ⟨0, [.bool]⟩).1 (by decide) (by decide),
   (claim2_amended heap0 .bool .bool ⟨0, [.bool]⟩ ⟨0, [.bool]⟩).2 (by decide) (by decide)⟩

/-- C3, corrected, counterexample: under strict equality `Any` is not
even equal to `Any` — `Type::equal(Any, Any, strict = true)` returns
`!strict`, i.e. `false`, not `true` as claimed. -/
theorem claim3_counterexample : GirType.equal .any .any true = false := rfl

/-- C3, amended: under strict equality `Any` is equal to no type at
all (itself included); under loose equality `Any` is equal to every
type, in both argument positions. -/
theorem claim3_amended (t : GirType) :
    GirType.equal .any t true = false ∧ GirType.equal t .any true = false
      ∧ GirType.equal .any t false = true ∧ GirType.equal t .any false = true := by
  refine ⟨?_, ?_, ?_, ?_⟩ <;> cases t <;> rfl

/-- C10, confirmed: `is_int` returns true for `Bool`, and consequently
`is_number` and `is_primitive` also classify `Bool` as numeric and
primitive. -/
theorem claim10_bool_is_int :
    GirType.is_int .bool = true ∧ GirType.is_number .bool = true
      ∧ GirType.is_primitive .bool = true := by decide

/-- A cast node is never identical to the expression it wraps. -/
theorem cast_ne (v : Expr) (t : GirType) (k : CastType) : Expr.cast v t k ≠ v := by
  intro h
  have hs := congrArg sizeOf h
  simp only [Expr.cast.sizeOf_spec] at hs
  omega

/-- C1, corrected, counterexample: `try_cast` short-circuits on *loose*
equality, so a value of type `Any` cast to `Bool` is returned unchanged
with success even though the two types are not strictly equal. -/
theorem claim1_counterexample :
    tryCast ccNone (Expr.lit .any) .bool = (Expr.lit .any, true)
      ∧ GirType.equal (Expr.lit .any).getType .bool true = false :=
  ⟨rfl, rfl⟩

/-- C1, amended: `try_cast` returns the value unchanged with success
exactly when its type is *loosely* equal to the target (`equal` with
`strict = false`, under which `Any` matches anything); only otherwise
does it query `can_cast_type`, wrapping the value in a typed cast node
on a returned kind and reporting failure when no kind is returned. -/
theorem claim1_amended (cc : CanCast) (value : Expr) (ty : GirType) :
    (tryCast cc value ty = (value, true) ↔ GirType.equal value.getType ty false = true)
    ∧ (GirType.equal value.getType ty false = false →
        (cc value.getType ty = Option.none → tryCast cc value ty = (value, false))
        ∧ ∀ k, cc value.getType ty = some k →
            tryCast cc value ty = (Expr.cast value ty k, true)) := by
  cases hq : GirType.equal value.getType ty false with
  | true => simp [tryCast, hq]
  | false =>
    cases hcc : cc value.getType ty with
    | none => simp [tryCast, hq, hcc]
    | some k => simp [tryCast, hq, hcc, cast_ne]

/-- C1 witness: the amended equivalence applied to a value whose type
equals the target. -/
theorem claim1_amended_witness :
    tryCast ccNone (Expr.lit .bool) .bool = (Expr.lit .bool, true) :=
  (claim1_amended ccNone (Expr.lit .bool) .bool).1.mpr (by decide)

/-- Every type has positive size. -/
theorem girType_sizeOf_pos (t : GirType) : 0 < sizeOf t := by
  cases t <;> simp +arith

/-- The substitution step of `resolve` leaves a variable-free type
unchanged. -/
theorem substVar_noVar (t : GirType) (args : List GirType) (h : noVar t = true) :
    substVar t args = t := by
  cases t with
  | var i n b => exact Bool.noConfusion h
  | rawPtr inner => cases inner <;> first | rfl | exact Bool.noConfusion h
  | nullable inner => cases inner <;> first | rfl | exact Bool.noConfusion h
  | _ => rfl

/-- Members of a type's argument vector are smaller than the type. -/
theorem typeArgs_size :
    ∀ (t : GirType) (a : List GirType), typeArgs t = some a → ∀ x ∈ a, sizeOf x < sizeOf t
  | .function r ar, a, h, x, hx => by
    have h2 : ar = a := Option.some.inj h
    subst h2
    have h3 := List.sizeOf_lt_of_mem hx
    simp only [GirType.function.sizeOf_spec]
    omega
  | .adt r ar, a, h, x, hx => by
    have h2 : ar = a := Option.some.inj h
    subst h2
    have h3 := List.sizeOf_lt_of_mem hx
    simp only [GirType.adt.sizeOf_spec]
    omega
  | .type' t, a, h, x, hx => by
    have h3 := typeArgs_size t a h x hx
    simp only [GirType.type'.sizeOf_spec]
    omega
  | .rawPtr t, a, h, x, hx => by
    have h3 := typeArgs_size t a h x hx
    simp only [GirType.rawPtr.sizeOf_spec]
    omega
  | .nullable t, a, h, x, hx => by
    have h3 := typeArgs_size t a h x hx
    simp only [GirType.nullable.sizeOf_spec]
    omega
  | .var i n (.interface iface), a, h, x, hx => by
    have h3 := typeArgs_size iface a h x hx
    simp only [GirType.var.sizeOf_spec, TVBound.interface.sizeOf_spec]
    omega
  | .var i n (.marker b), a, h, x, hx => Option.noConfusion h
  | .any, a, h, x, hx => Option.noConfusion h
  | .none, a, h, x, hx => Option.noConfusion h
  | .null, a, h, x, hx => Option.noConfusion h
  | .bool, a, h, x, hx => Option.noConfusion h
  | .i8, a, h, x, hx => Option.noConfusion h
  | .i16, a, h, x, hx => Option.noConfusion h
  | .i32, a, h, x, hx => Option.noConfusion h
  | .i64, a, h, x, hx => Option.noConfusion h
  | .u8, a, h, x, hx => Option.noConfusion h
  | .u16, a, h, x, hx => Option.noConfusion h
  | .u32, a, h, x, hx => Option.noConfusion h
  | .u64, a, h, x, hx => Option.noConfusion h
  | .f32, a, h, x, hx => Option.noConfusion h
  | .f64, a, h, x, hx => Option.noConfusion h
  | .closure p r, a, h, x, hx => Option.noConfusion h
  | .closureCaptured c, a, h, x, hx => Option.noConfusion h

/-- A variable-free type's argument vector is variable-free. -/
theorem typeArgs_noVar :
    ∀ (t : GirType) (a : List GirType), noVar t = true → typeArgs t = some a →
      noVarList a = true
  | .function r ar, a, hv, h => by
    have h2 : ar = a := Option.some.inj h
    subst h2
    exact hv
  | .adt r ar, a, hv, h => by
    have h2 : ar = a := Option.some.inj h
    subst h2
    exact hv
  | .type' t, a, hv, h => typeArgs_noVar t a hv h
  | .rawPtr t, a, hv, h => typeArgs_noVar t a hv h
  | .nullable t, a, hv, h => typeArgs_noVar t a hv h
  | .var i n (.interface iface), a, hv, h => Bool.noConfusion hv
  | .var i n (.marker b), a, hv, h => Option.noConfusion h
  | .any, _, _, h => Option.noConfusion h
  | .none, _, _, h => Option.noConfusion h
  | .null, _, _, h => Option.noConfusion h
  | .bool, _, _, h => Option.noConfusion h
  | .i8, _, _, h => Option.noConfusion h
  | .i16, _, _, h => Option.noConfusion h
  | .i32, _, _, h => Option.noConfusion h
  | .i64, _, _, h => Option.noConfusion h
  | .u8, _, _, h => Option.noConfusion h
  | .u16, _, _, h => Option.noConfusion h
  | .u32, _, _, h => Option.noConfusion h
  | .u64, _, _, h => Option.noConfusion h
  | .f32, _, _, h => Option.noConfusion h
  | .f64, _, _, h => Option.noConfusion h
  | .closure p r, _, _, h => Option.noConfusion h
  | .closureCaptured c, _, _, h => Option.noConfusion h

/-- A variable-free, prototype-free type's argument vector is
prototype-free. -/
theorem typeArgs_noProto (heap : Heap) :
    ∀ (t : GirType) (a : List GirType), noVar t = true → noProto heap t = true →
      typeArgs t = some a → noProtoList heap a = true
  | .function r ar, a, _, hv, h => by
    have h2 : ar = a := Option.some.inj h
    subst h2
    have hv2 : ((!ar.isEmpty || (heap r).typeParams.isEmpty) && noProtoList heap ar) = true := hv
    exact (Bool.and_eq_true_iff.mp hv2).2
  | .adt r ar, a, _, hv, h => by
    have h2 : ar = a := Option.some.inj h
    subst h2
    have hv2 : ((!ar.isEmpty || (heap r).typeParams.isEmpty) && noProtoList heap ar) = true := hv
    exact (Bool.and_eq_true_iff.mp hv2).2
  | .type' t, a, hn, hv, h => typeArgs_noProto heap t a hn hv h
  | .rawPtr t, a, hn, hv, h => typeArgs_noProto heap t a hn hv h
  | .nullable t, a, hn, hv, h => typeArgs_noProto heap t a hn hv h
  | .var i n b, a, hn, hv, h => Bool.noConfusion hn
  | .any, _, _, _, h => Option.noConfusion h
  | .none, _, _, _, h => Option.noConfusion h
  | .null, _, _, _, h => Option.noConfusion h
  | .bool, _, _, _, h => Option.noConfusion h
  | .i8, _, _, _, h => Option.noConfusion h
  | .i16, _, _, _, h => Option.noConfusion h
  | .i32, _, _, _, h => Option.noConfusion h
  | .i64, _, _, _, h => Option.noConfusion h
  | .u8, _, _, _, h => Option.noConfusion h
  | .u16, _, _, _, h => Option.noConfusion h
  | .u32, _, _, _, h => Option.noConfusion h
  | .u64, _, _, _, h => Option.noConfusion h
  | .f32, _, _, _, h => Option.noConfusion h
  | .f64, _, _, _, h => Option.noConfusion h
  | .closure p r, _, _, _, h => Option.noConfusion h
  | .closureCaptured c, _, _, _, h => Option.noConfusion h

/-- Writing a type's own argument vector back into it is the identity,
for variable-free types. -/
theorem setTypeArgs_self :
    ∀ (t : GirType) (a : List GirType), noVar t = true → typeArgs t = some a →
      setTypeArgs t a = some t
  | .function r ar, a, _, h => by
    have h2 : ar = a := Option.some.inj h
    subst h2
    rfl
  | .adt r ar, a, _, h => by
    have h2 : ar = a := Option.some.inj h
    subst h2
    rfl
  | .type' t, a, hv, h => by
    show (setTypeArgs t a).map GirType.type' = some (.type' t)
    rw [setTypeArgs_self t a hv h]
    rfl
  | .rawPtr t, a, hv, h => by
    show (setTypeArgs t a).map GirType.rawPtr = some (.rawPtr t)
    rw [setTypeArgs_self t a hv h]
    rfl
  | .nullable t, a, hv, h => by
    show (setTypeArgs t a).map GirType.nullable = some (.nullable t)
    rw [setTypeArgs_self t a hv h]
    rfl
  | .var i n b, a, hv, h => Bool.noConfusion hv
  | .any, _, _, h => Option.noConfusion h
  | .none, _, _, h => Option.noConfusion h
  | .null, _, _, h => Option.noConfusion h
  | .bool, _, _, h => Option.noConfusion h
  | .i8, _, _, h => Option.noConfusion h
  | .i16, _, _, h => Option.noConfusion h
  | .i32, _, _, h => Option.noConfusion h
  | .i64, _, _, h => Option.noConfusion h
  | .u8, _, _, h => Option.noConfusion h
  | .u16, _, _, h => Option.noConfusion h
  | .u32, _, _, h => Option.noConfusion h
  | .u64, _, _, h => Option.noConfusion h
  | .f32, _, _, h => Option.noConfusion h
  | .f64, _, _, h => Option.noConfusion h
  | .closure p r, _, _, h => Option.noConfusion h
  | .closureCaptured c, _, _, h => Option.noConfusion h

/-- For a variable-free, prototype-free type the attachment condition
of `resolve`'s third step is false. -/
theorem attach_blocked (heap : Heap) :
    ∀ (t : GirType), noVar t = true → noProto heap t = true →
      (((typeArgs t).map List.isEmpty).getD false
        && ((typeParams heap t).map (fun p => !p.isEmpty)).getD false) = false
  | .function r ar, _, hp => by
    have hv2 : ((!ar.isEmpty || (heap r).typeParams.isEmpty) && noProtoList heap ar) = true := hp
    have h1 := (Bool.and_eq_true_iff.mp hv2).1
    show (ar.isEmpty && !(heap r).typeParams.isEmpty) = false
    cases he : ar.isEmpty with
    | false => rfl
    | true =>
      rw [he] at h1
      cases hq : (heap r).typeParams.isEmpty with
      | true => simp
      | false => rw [hq] at h1; exact Bool.noConfusion h1
  | .adt r ar, _, hp => by
    have hv2 : ((!ar.isEmpty || (heap r).typeParams.isEmpty) && noProtoList heap ar) = true := hp
    have h1 := (Bool.and_eq_true_iff.mp hv2).1
    show (ar.isEmpty && !(heap r).typeParams.isEmpty) = false
    cases he : ar.isEmpty with
    | false => rfl
    | true =>
      rw [he] at h1
      cases hq : (heap r).typeParams.isEmpty with
      | true => simp
      | false => rw [hq] at h1; exact Bool.noConfusion h1
  | .type' t, hv, hp => attach_blocked heap t hv hp
  | .rawPtr t, hv, hp => attach_blocked heap t hv hp
  | .nullable t, hv, hp => attach_blocked heap t hv hp
  | .var i n b, hv, _ => Bool.noConfusion hv
  | .any, _, _ => rfl
  | .none, _, _ => rfl
  | .null, _, _ => rfl
  | .bool, _, _ => rfl
  | .i8, _, _ => rfl
  | .i16, _, _ => rfl
  | .i32, _, _ => rfl
  | .i64, _, _ => rfl
  | .u8, _, _ => rfl
  | .u16, _, _ => rfl
  | .u32, _, _ => rfl
  | .u64, _, _ => rfl
  | .f32, _, _ => rfl
  | .f64, _, _ => rfl
  | .closure p r, _, _ => rfl
  | .closureCaptured c, _, _ => rfl

/-- Membership version of `noVarList`. -/
theorem noVarList_mem : ∀ (a : List GirType), noVarList a = true → ∀ x ∈ a, noVar x = true
  | x :: xs, h, y, hy => by
    have h2 : (noVar x && noVarList xs) = true := h
    obtain ⟨h1, hrest⟩ := Bool.and_eq_true_iff.mp h2
    cases hy with
    | head => exact h1
    | tail _ hy2 => exact noVarList_mem xs hrest y hy2
  | [], _, y, hy => absurd hy (List.not_mem_nil y)

/-- Membership version of `noProtoList`. -/
theorem noProtoList_mem (heap : Heap) :
    ∀ (a : List GirType), noProtoList heap a = true → ∀ x ∈ a, noProto heap x = true
  | x :: xs, h, y, hy => by
    have h2 : (noProto heap x && noProtoList heap xs) = true := h
    obtain ⟨h1, hrest⟩ := Bool.and_eq_true_iff.mp h2
    cases hy with
    | head => exact h1
    | tail _ hy2 => exact noProtoList_mem heap xs hrest y hy2
  | [], _, y, hy => absurd hy (List.not_mem_nil y)

/-- `resolve(args)` leaves a variable-free, prototype-free type
syntactically unchanged, given enough fuel. -/
theorem resolveF_noop (heap : Heap) :
    ∀ (fuel : Nat) (t : GirType) (args : List GirType), noVar t = true →
      noProto heap t = true → sizeOf t ≤ fuel → resolveF heap fuel t args = t := by
  intro fuel
  induction fuel with
  | zero =>
    intro t args _ _ hs
    have := girType_sizeOf_pos t
    omega
  | succ n ih =>
    intro t args hv hp hs
    simp only [resolveF]
    rw [substVar_noVar t args hv]
    rw [attach_blocked heap t hv hp]
    rw [if_neg Bool.false_ne_true]
    cases h : typeArgs t with
    | none => rfl
    | some a =>
      have hmap : a.map (fun x => resolveF heap n x args) = a := by
        have hid : ∀ x ∈ a, resolveF heap n x args = x := fun x hx =>
          ih x args (noVarList_mem a (typeArgs_noVar t a hv h) x hx)
            (noProtoList_mem heap a (typeArgs_noProto heap t a hv hp h) x hx)
            (by have := typeArgs_size t a h x hx; omega)
        calc a.map (fun x => resolveF heap n x args) = a.map id := List.map_congr_left hid
          _ = a := List.map_id a
      show (setTypeArgs t (a.map (fun x => resolveF heap n x args))).getD t = t
      rw [hmap, setTypeArgs_self t a hv h]
      rfl

/-- C6, corrected, counterexample: `resolve` attaches arguments to an
unspecialized instance even when the type contains no `Variable`; the
bare instance of the one-parameter class at declaration 0 resolves, with
`args = [I32]`, to the specialized instance, which is not strictly equal
to the original type. -/
theorem claim6_counterexample :
    noVar (GirType.adt 0 []) = true
      ∧ resolveF heapBox 5 (.adt 0 []) [.i32] = GirType.adt 0 [.i32]
      ∧ GirType.equal (resolveF heapBox 5 (.adt 0 []) [.i32]) (.adt 0 []) true = false := by
  refine ⟨rfl, rfl, rfl⟩

/-- C6, amended: for a type with no `Variable`, no unspecialized
instance of a parameterized declaration, and no `Any` in
equality-relevant positions (strict equality is irreflexive at `Any`),
`resolve(args)` returns a strictly equal type, for any argument list
and any fuel of at least the type's size. -/
theorem claim6_amended (heap : Heap) (fuel : Nat) (t : GirType) (args : List GirType)
    (h1 : noVar t = true) (h2 : noProto heap t = true) (h3 : noAny t = true)
    (h4 : sizeOf t ≤ fuel) :
    GirType.equal (resolveF heap fuel t args) t true = true := by
  rw [resolveF_noop heap fuel t args h1 h2 h4]
  exact equal_refl_of_noAny t h3

/-- C6 witness: the amended round-trip at a concrete specialized
instance. -/
theorem claim6_amended_witness :
    GirType.equal (resolveF heapBox 10 (.adt 0 [.i32]) [.bool]) (.adt 0 [.i32]) true = true :=
  claim6_amended heapBox 10 (.adt 0 [.i32]) [.bool] (by decide) (by decide) (by decide)
    (by decide)

/-- Strict equality between `Null` and a type the null-widening guard
accepts is always false, in both orders. -/
theorem equal_null_not_blocked (other : GirType) (h : isWidenBlocked other = false) :
    GirType.equal .null other true = false ∧ GirType.equal other .null true = false := by
  cases other <;> first | exact ⟨rfl, rfl⟩ | exact Bool.noConfusion h

/-- Evaluation of `try_unify_type` on the null-widening path: when one
side's type is `Null` and the other side's type passes the guard, both
sides are cast to the nullable variant of the other type, whatever the
cast policy. -/
theorem unify_null_widen (heap : Heap) (cc : CanCast) (fuel : Nat) (l r : Expr)
    (other : GirType) (hw : isWidenBlocked other = false) :
    (l.getType = .null → r.getType = other →
      unifyF heap cc (fuel + 1) l r =
        (some (.nullable other), .cast l (.nullable other) .toNullable,
          .cast r (.nullable other) .toNullable))
    ∧ (l.getType = other → r.getType = .null →
        unifyF heap cc (fuel + 1) l r =
          (some (.nullable other), .cast l (.nullable other) .toNullable,
            .cast r (.nullable other) .toNullable)) := by
  constructor
  · intro h1 h2
    cases other <;> first
      | exact Bool.noConfusion hw
      | (simp only [unifyF, unifyRest]
         rw [h1, h2]
         rfl)
  · intro h1 h2
    cases other <;> first
      | exact Bool.noConfusion hw
      | (simp only [unifyF, unifyRest]
         rw [h1, h2]
         rfl)

/-- C7, corrected, counterexample: with the left type `Null` and the
right type `Nullable(I32)` — a pair the claim's precondition accepts,
since `Nullable(I32)` is neither `Null` nor `None` — the source's
null-widening guard also excludes `Nullable(_)`, so no widening to
`Nullable(Nullable(I32))` happens; unification falls through to cast
probing (and fails under the empty cast policy).  The claim predicts the
widening before any cast probing, so its prediction is independent of
`can_cast_type` and this input refutes it for every policy. -/
theorem claim7_counterexample :
    unifyF heap0 ccNone 2 (Expr.lit .null) (Expr.lit (.nullable .i32))
        = (Option.none, Expr.lit .null, Expr.lit (.nullable .i32))
      ∧ GirType.equal .null (.nullable .i32) true = false
      ∧ GirType.equal (.nullable .i32) .null true = false
      ∧ GirType.equal (.nullable .i32) .none true = false :=
  ⟨rfl, rfl, rfl, rfl⟩

/-- C7, amended: when the two types are unequal, one side is `Null` and
the other side's type is neither `Null` nor `None` *nor already
`Nullable`*, both expressions are cast to the nullable variant of the
other type and that nullable type is returned — before and independent
of generic cast probing (the policy `cc` is universally quantified), in
either order.  Inequality of the two types is automatic from the guard.
The enum-case step cannot fire since `Null` carries no ADT. -/
theorem claim7_amended (heap : Heap) (cc : CanCast) (fuel : Nat) (l r : Expr)
    (other : GirType) (hw : isWidenBlocked other = false) :
    (l.getType = .null → r.getType = other →
      unifyF heap cc (fuel + 1) l r =
        (some (.nullable other), .cast l (.nullable other) .toNullable,
          .cast r (.nullable other) .toNullable))
    ∧ (l.getType = other → r.getType = .null →
        unifyF heap cc (fuel + 1) l r =
          (some (.nullable other), .cast l (.nullable other) .toNullable,
            .cast r (.nullable other) .toNullable)) :=
  unify_null_widen heap cc fuel l r other hw

/-- C7 witness: null widening at a concrete `Null` / `I32` pair. -/
theorem claim7_amended_witness :
    unifyF heap0 ccNone 1 (Expr.lit .null) (Expr.lit .i32)
      = (some (.nullable .i32), Expr.cast (Expr.lit .null) (.nullable .i32) .toNullable,
          Expr.cast (Expr.lit .i32) (.nullable .i32) .toNullable) :=
  (claim7_amended heap0 ccNone 0 (Expr.lit .null) (Expr.lit .i32) .i32 (by decide)).1 rfl rfl

/-- A type carrying an ADT instance is either that instance or a
nullable wrapper. -/
theorem tryAdtNullable_shape :
    ∀ (t : GirType) (r : Nat) (a : List GirType), tryAdtNullable t = some (r, a) →
      t = .adt r a ∨ ∃ i, t = .nullable i
  | .adt x y, r, a, h => by
    have h2 : (x, y) = (r, a) := Option.some.inj h
    have hx : x = r := congrArg Prod.fst h2
    have hy : y = a := congrArg Prod.snd h2
    subst hx
    subst hy
    exact Or.inl rfl
  | .nullable i, r, a, h => Or.inr ⟨i, rfl⟩
  | .any, _, _, h => Option.noConfusion h
  | .none, _, _, h => Option.noConfusion h
  | .null, _, _, h => Option.noConfusion h
  | .bool, _, _, h => Option.noConfusion h
  | .i8, _, _, h => Option.noConfusion h
  | .i16, _, _, h => Option.noConfusion h
  | .i32, _, _, h => Option.noConfusion h
  | .i64, _, _, h => Option.noConfusion h
  | .u8, _, _, h => Option.noConfusion h
  | .u16, _, _, h => Option.noConfusion h
  | .u32, _, _, h => Option.noConfusion h
  | .u64, _, _, h => Option.noConfusion h
  | .f32, _, _, h => Option.noConfusion h
  | .f64, _, _, h => Option.noConfusion h
  | .function _ _, _, _, h => Option.noConfusion h
  | .closure _ _, _, _, h => Option.noConfusion h
  | .closureCaptured _, _, _, h => Option.noConfusion h
  | .rawPtr _, _, _, h => Option.noConfusion h
  | .var _ _ _, _, _, h => Option.noConfusion h
  | .type' _, _, _, h => Option.noConfusion h

/-- Evaluation of `try_unify_type` on the enum-case-to-parent path: the
returned common type is the parent instance carrying the left side's
argument list, nullable unless both sides were plain ADTs.  The re-run
of unification stops at strict equality thanks to the argument list's
self-equality. -/
theorem unify_enum_eval (heap : Heap) (cc : CanCast) (fuel : Nat) (l r : Expr)
    (r1 r2 p : Nat) (a1 a2 : List GirType) (s1 s2 : Bool)
    (hne : GirType.equal l.getType r.getType true = false)
    (htl : tryAdtNullable l.getType = some (r1, a1))
    (htr : tryAdtNullable r.getType = some (r2, a2))
    (hk1 : (heap r1).kind = .enumCaseKind p s1)
    (hk2 : (heap r2).kind = .enumCaseKind p s2)
    (h12 : argsEq a1 a2 = true) (h11 : argsEq a1 a1 = true) :
    (unifyF heap cc (fuel + 2) l r).1
      = some (if l.getType.is_adt && r.getType.is_adt
              then .adt p a1 else .nullable (.adt p a1)) := by
  have hshl := tryAdtNullable_shape l.getType r1 a1 htl
  have hshr := tryAdtNullable_shape r.getType r2 a2 htr
  simp only [unifyF, hne, Bool.false_eq_true, if_false, htl, htr, hk1, hk2,
    beq_self_eq_true, h12, Bool.and_self, Bool.true_and, if_true]
  rcases hshl with hl | ⟨i1, hl⟩ <;> rcases hshr with hr | ⟨i2, hr⟩ <;>
    rw [hl, hr] <;>
    simp only [unifyF, Expr.getType, GirType.is_adt, equal_adt_adt, equal_nul_nul,
      beq_self_eq_true, h11, Bool.and_self, Bool.true_and, if_true, Bool.and_false,
      Bool.false_and, if_false] <;>
    rfl

/-- Boolean equality on naturals is symmetric. -/
theorem natBeq_comm (i j : Nat) : (i == j) = (j == i) := by
  cases h : decide (i = j) <;> simp_all [eq_comm]

mutual

/-- `Type::equal` is symmetric in its two type arguments, for both
equality modes. -/
theorem equal_symm : ∀ (a b : GirType) (s : Bool), GirType.equal a b s = GirType.equal b a s
  | .any, b, s => by cases b <;> rfl
  | .none, b, s => by cases b <;> rfl
  | .null, b, s => by cases b <;> rfl
  | .bool, b, s => by cases b <;> rfl
  | .i8, b, s => by cases b <;> rfl
  | .i16, b, s => by cases b <;> rfl
  | .i32, b, s => by cases b <;> rfl
  | .i64, b, s => by cases b <;> rfl
  | .u8, b, s => by cases b <;> rfl
  | .u16, b, s => by cases b <;> rfl
  | .u32, b, s => by cases b <;> rfl
  | .u64, b, s => by cases b <;> rfl
  | .f32, b, s => by cases b <;> rfl
  | .f64, b, s => by cases b <;> rfl
  | .closureCaptured c, b, s => by cases b <;> rfl
  | .function r1 a1, b, s => by
    cases b <;> try rfl
    case function r2 a2 =>
      show (r1 == r2 && argsEq a1 a2) = (r2 == r1 && argsEq a2 a1)
      rw [argsEq_symm a1 a2, natBeq_comm r1 r2]
  | .adt r1 a1, b, s => by
    cases b <;> try rfl
    case adt r2 a2 =>
      show (r1 == r2 && argsEq a1 a2) = (r2 == r1 && argsEq a2 a1)
      rw [argsEq_symm a1 a2, natBeq_comm r1 r2]
  | .closure p1 r1, b, s => by
    cases b <;> try rfl
    case closure p2 r2 =>
      show (argsEq p1 p2 && GirType.equal r1 r2 true)
        = (argsEq p2 p1 && GirType.equal r2 r1 true)
      rw [argsEq_symm p1 p2, equal_symm r1 r2 true]
  | .nullable v, b, s => by
    cases b <;> try rfl
    case nullable o =>
      show GirType.equal v o true = GirType.equal o v true
      exact equal_symm v o true
  | .rawPtr v, b, s => by
    cases b <;> try rfl
    case rawPtr o =>
      show GirType.equal v o true = GirType.equal o v true
      exact equal_symm v o true
  | .type' v, b, s => by
    cases b <;> try rfl
    case type' o =>
      show GirType.equal v o true = GirType.equal o v true
      exact equal_symm v o true
  | .var i1 n1 b1, b, s => by
    cases b <;> try rfl
    case var i2 n2 b2 =>
      show (i1 == i2) = (i2 == i1)
      exact natBeq_comm i1 i2

/-- List version of `equal_symm`. -/
theorem argsEq_symm : ∀ (xs ys : List GirType), argsEq xs ys = argsEq ys xs
  | [], [] => rfl
  | x :: xs, y :: ys => by
    show (GirType.equal x y true && argsEq xs ys) = (GirType.equal y x true && argsEq ys xs)
    rw [equal_symm x y true, argsEq_symm xs ys]
  | [], _ :: _ => rfl
  | _ :: _, [] => rfl

end

/-- C8, confirmed: whenever `try_unify_type` succeeds structurally —
through enum-case-to-parent unification or through null widening — the
resulting common type is the same in both argument orders (syntactically
for null widening; up to the code's strict type equality for the enum
path, whose two results carry the respective sides' equal argument
lists).  The cast policy is universally quantified: neither path
consults it. -/
theorem claim8_commutative (heap : Heap) (cc : CanCast) (fuel : Nat) (l r : Expr)
    (h : EnumPathP heap l.getType r.getType ∨ NullPathP l.getType r.getType) :
    ∃ a b, (unifyF heap cc (fuel + 2) l r).1 = some a
      ∧ (unifyF heap cc (fuel + 2) r l).1 = some b
      ∧ (a = b ∨ GirType.equal a b true = true) := by
  rcases h with ⟨hne, r1, r2, p, a1, a2, s1, s2, htl, htr, hk1, hk2, h12, h11, h22⟩ | hnp
  · have hne2 : GirType.equal r.getType l.getType true = false := by
      rw [equal_symm]
      exact hne
    have h21 : argsEq a2 a1 = true := by
      rw [argsEq_symm]
      exact h12
    have e1 := unify_enum_eval heap cc fuel l r r1 r2 p a1 a2 s1 s2 hne htl htr hk1 hk2 h12 h11
    have e2 := unify_enum_eval heap cc fuel r l r2 r1 p a2 a1 s2 s1 hne2 htr htl hk2 hk1 h21 h22
    refine ⟨_, _, e1, e2, Or.inr ?_⟩
    rw [Bool.and_comm r.getType.is_adt l.getType.is_adt]
    cases hc : (l.getType.is_adt && r.getType.is_adt) with
    | true =>
      rw [if_pos rfl, if_pos rfl, equal_adt_adt]
      simp [h12]
    | false =>
      rw [if_neg Bool.false_ne_true, if_neg Bool.false_ne_true, equal_nul_nul,
        equal_adt_adt]
      simp [h12]
  · rcases hnp with ⟨h1, h2⟩ | ⟨h1, h2⟩
    · have w1 := (unify_null_widen heap cc (fuel + 1) l r r.getType h2).1 h1 rfl
      have w2 := (unify_null_widen heap cc (fuel + 1) r l r.getType h2).2 rfl h1
      exact ⟨.nullable r.getType, .nullable r.getType, by rw [w1], by rw [w2], Or.inl rfl⟩
    · have w1 := (unify_null_widen heap cc (fuel + 1) l r l.getType h2).2 rfl h1
      have w2 := (unify_null_widen heap cc (fuel + 1) r l l.getType h2).1 h1 rfl
      exact ⟨.nullable l.getType, .nullable l.getType, by rw [w1], by rw [w2], Or.inl rfl⟩

/-- C8 witness: commutativity at two concrete cases of the same enum. -/
theorem claim8_commutative_witness :
    ∃ a b, (unifyF heapEnum ccNone 2 (Expr.lit (.adt 1 [])) (Expr.lit (.adt 2 []))).1 = some a
      ∧ (unifyF heapEnum ccNone 2 (Expr.lit (.adt 2 [])) (Expr.lit (.adt 1 []))).1 = some b
      ∧ (a = b ∨ GirType.equal a b true = true) :=
  claim8_commutative heapEnum ccNone 0 (Expr.lit (.adt 1 [])) (Expr.lit (.adt 2 []))
    (Or.inl ⟨rfl, 1, 2, 0, [], [], true, true, rfl, rfl, rfl, rfl, rfl, rfl, rfl⟩)

/-- The symbol table only hands out primitives or bare declaration
instances: never `Null` and never a `Nullable`. -/
theorem symbol_shape (env : Env) (name : String) (t : GirType)
    (h : symbol env name = some t) : t ≠ .null ∧ ∀ i, t ≠ .nullable i := by
  unfold symbol at h
  split at h <;>
    first
    | (cases Option.some.inj h
       constructor
       · intro hx
         cases hx
       · intro i hx
         cases hx)
    | (obtain ⟨d, hd, h2⟩ := Option.map_eq_some'.mp h
       cases d <;> cases h2 <;>
         (constructor
          · intro hx
            cases hx
          · intro i hx
            cases hx))

/-- A type-parameter lookup only hands out `Variable`s. -/
theorem searchTypeParam_shape (env : Env) (name : String) (t : GirType)
    (h : searchTypeParam env name = some t) : ∃ i n b, t = .var i n b := by
  unfold searchTypeParam at h
  cases hp : env.typeParams with
  | none =>
    simp only [hp] at h
    exact Option.noConfusion h
  | some ps =>
    simp only [hp] at h
    cases hf : ps.find? (fun p => p.name == name) with
    | none =>
      simp only [hf] at h
      exact Option.noConfusion h
    | some p =>
      simp only [hf] at h
      exact ⟨p.index, p.name, p.bound, (Option.some.inj h).symm⟩

/-- Writing arguments into a type never yields `Null` or a `Nullable`
unless the original type was already `Nullable`-headed. -/
theorem setTypeArgs_shape :
    ∀ (ty : GirType) (args : List GirType) (t2 : GirType),
      setTypeArgs ty args = some t2 → (ty.is_nullable = false → t2.is_nullable = false)
        ∧ t2 ≠ .null
  | .function r a, args, t2, h => by
    cases Option.some.inj h
    exact ⟨fun _ => rfl, by intro hx; cases hx⟩
  | .adt r a, args, t2, h => by
    cases Option.some.inj h
    exact ⟨fun _ => rfl, by intro hx; cases hx⟩
  | .type' ty, args, t2, h => by
    cases hs : setTypeArgs ty args with
    | none =>
      have h2 : (setTypeArgs ty args).map GirType.type' = some t2 := h
      rw [hs] at h2
      exact Option.noConfusion h2
    | some u =>
      have h2 : (setTypeArgs ty args).map GirType.type' = some t2 := h
      rw [hs] at h2
      cases Option.some.inj h2
      exact ⟨fun _ => rfl, by intro hx; cases hx⟩
  | .rawPtr ty, args, t2, h => by
    cases hs : setTypeArgs ty args with
    | none =>
      have h2 : (setTypeArgs ty args).map GirType.rawPtr = some t2 := h
      rw [hs] at h2
      exact Option.noConfusion h2
    | some u =>
      have h2 : (setTypeArgs ty args).map GirType.rawPtr = some t2 := h
      rw [hs] at h2
      cases Option.some.inj h2
      exact ⟨fun _ => rfl, by intro hx; cases hx⟩
  | .nullable ty, args, t2, h => by
    cases hs : setTypeArgs ty args with
    | none =>
      have h2 : (setTypeArgs ty args).map GirType.nullable = some t2 := h
      rw [hs] at h2
      exact Option.noConfusion h2
    | some u =>
      have h2 : (setTypeArgs ty args).map GirType.nullable = some t2 := h
      rw [hs] at h2
      cases Option.some.inj h2
      exact ⟨fun hcontra => Bool.noConfusion hcontra, by intro hx; cases hx⟩
  | .any, _, _, h => Option.noConfusion h
  | .none, _, _, h => Option.noConfusion h
  | .null, _, _, h => Option.noConfusion h
  | .bool, _, _, h => Option.noConfusion h
  | .i8, _, _, h => Option.noConfusion h
  | .i16, _, _, h => Option.noConfusion h
  | .i32, _, _, h => Option.noConfusion h
  | .i64, _, _, h => Option.noConfusion h
  | .u8, _, _, h => Option.noConfusion h
  | .u16, _, _, h => Option.noConfusion h
  | .u32, _, _, h => Option.noConfusion h
  | .u64, _, _, h => Option.noConfusion h
  | .f32, _, _, h => Option.noConfusion h
  | .f64, _, _, h => Option.noConfusion h
  | .closure _ _, _, _, h => Option.noConfusion h
  | .closureCaptured _, _, _, h => Option.noConfusion h
  | .var _ _ _, _, _, h => Option.noConfusion h

/-- A non-`Nullable`-headed type differs from every `Nullable`. -/
theorem is_nullable_false_ne (t : GirType) (h : t.is_nullable = false) :
    ∀ i, t ≠ .nullable i := by
  intro i hx
  subst hx
  exact Bool.noConfusion h

/-- `find_type_` never produces the bare `Null` type, nor
`Nullable(Null)`: no identifier resolves to `Null` (it is not in the
primitive table and declarations only yield instances), and every other
shape wraps or checks its parts. -/
theorem findTypeA_shape (heap : Heap) (env : Env) :
    ∀ (allowFn : Bool) (ast : AstType) (t : GirType),
      findTypeA heap env allowFn ast = .ok t → t ≠ .null ∧ t ≠ .nullable .null
  | allowFn, .ident name, t, h => by
    simp only [findTypeA] at h
    have hshape : ∀ ty, (searchTypeParam env name).orElse (fun _ => symbol env name) = some ty →
        ty ≠ .null ∧ ∀ i, ty ≠ .nullable i := by
      intro ty ho
      cases hstp : searchTypeParam env name with
      | some p =>
        rw [hstp] at ho
        have hp : p = ty := Option.some.inj ho
        subst hp
        obtain ⟨i, n, b, hv⟩ := searchTypeParam_shape env name p hstp
        subst hv
        exact ⟨(by intro hx; cases hx), fun i2 hx => by cases hx⟩
      | none =>
        rw [hstp] at ho
        have hsym : symbol env name = some ty := ho
        obtain ⟨h1, h2⟩ := symbol_shape env name ty hsym
        exact ⟨h1, h2⟩
    cases ho : (searchTypeParam env name).orElse (fun _ => symbol env name) with
    | none =>
      simp only [ho] at h
      exact Except.noConfusion h
    | some ty =>
      simp only [ho] at h
      cases hc : checkArgsCount heap ty with
      | error e =>
        simp only [hc] at h
        exact Except.noConfusion h
      | ok u =>
        simp only [hc] at h
        cases hif : (ty.is_function && !allowFn) with
        | true =>
          simp only [hif] at h
          exact Except.noConfusion h
        | false =>
          simp only [hif] at h
          have ht : ty = t := Except.ok.inj h
          subst ht
          obtain ⟨h1, h2⟩ := hshape ty ho
          exact ⟨h1, h2 .null⟩
  | allowFn, .nullable inner, t, h => by
    simp only [findTypeA] at h
    cases hi : findTypeA heap env false inner with
    | error e =>
      simp only [hi] at h
      exact Except.noConfusion h
    | ok u =>
      simp only [hi] at h
      have hu := findTypeA_shape heap env false inner u hi
      cases u with
      | nullable v => exact Except.noConfusion h
      | null => exact absurd rfl hu.1
      | _ =>
        have ht := Except.ok.inj h
        subst ht
        constructor
        · intro hx
          cases hx
        · intro hx
          have := (GirType.nullable.inj hx)
          simp_all
  | allowFn, .rawPtr inner, t, h => by
    simp only [findTypeA] at h
    cases hi : findTypeA heap env false inner with
    | error e =>
      simp only [hi] at h
      exact Except.noConfusion h
    | ok u =>
      simp only [hi, Except.map] at h
      have ht := Except.ok.inj h
      subst ht
      exact ⟨(by intro hx; cases hx), (by intro hx; cases hx)⟩
  | allowFn, .closure params retType, t, h => by
    simp only [findTypeA] at h
    cases hp : findTypeListA heap env params with
    | error e =>
      simp only [hp] at h
      exact Except.noConfusion h
    | ok ps =>
      simp only [hp] at h
      cases hr : findRetA heap env retType with
      | error e =>
        simp only [hr] at h
        exact Except.noConfusion h
      | ok u =>
        simp only [hr] at h
        have ht := Except.ok.inj h
        subst ht
        exact ⟨(by intro hx; cases hx), (by intro hx; cases hx)⟩
  | allowFn, .generic ident types, t, h => by
    simp only [findTypeA] at h
    cases hs : symbol env ident with
    | none =>
      simp only [hs] at h
      exact Except.noConfusion h
    | some ty =>
      simp only [hs] at h
      cases ha : findTypeListA heap env types with
      | error e =>
        simp only [ha] at h
        exact Except.noConfusion h
      | ok args =>
        simp only [ha] at h
        obtain ⟨hnull, hnul⟩ := symbol_shape env ident ty hs
        cases he : args.isEmpty with
        | true =>
          simp only [he] at h
          have ht := Except.ok.inj h
          subst ht
          exact ⟨hnull, hnul .null⟩
        | false =>
          simp only [he] at h
          cases hset : setTypeArgs ty args with
          | none =>
            simp only [hset] at h
            exact Except.noConfusion h
          | some ty2 =>
            simp only [hset] at h
            have ht := Except.ok.inj h
            subst ht
            obtain ⟨hpres, hnn⟩ := setTypeArgs_shape ty args ty2 hset
            have hnh : ty.is_nullable = false := by
              cases ty <;> first | rfl | exact absurd rfl (hnul _)
            exact ⟨hnn, is_nullable_false_ne ty2 (hpres hnh) .null⟩

/-- C9, confirmed: on a nullable AST type whose inner type resolves to
`t`, `find_type` fails with `E302` exactly when `t` is itself nullable
and otherwise returns `Nullable(t)`; and no AST type ever resolves to
`Nullable(Null)` (nothing resolves to `Null` at all), so a source type
denoting `Nullable(Null)` cannot be produced — it is rejected within
the only arm that builds nullables, the `E302` check. -/
theorem claim9_nullable_reject (heap : Heap) (env : Env) (inner : AstType) (t : GirType)
    (h : findType heap env inner = .ok t) :
    ((findType heap env (.nullable inner) = .error .e302) ↔ t.is_nullable = true)
    ∧ (t.is_nullable = false → findType heap env (.nullable inner) = .ok (.nullable t))
    ∧ ∀ ast, findType heap env ast ≠ .ok (.nullable .null) := by
  have h2 : findTypeA heap env false inner = .ok t := h
  have heval : findType heap env (.nullable inner)
      = (match t with
         | .nullable _ => Except.error .e302
         | t => Except.ok (.nullable t)) := by
    simp only [findType, findTypeA, h2]
    cases t <;> rfl
  refine ⟨⟨?_, ?_⟩, ?_, ?_⟩
  · intro he
    rw [heval] at he
    cases t with
    | nullable v => rfl
    | _ => exact Except.noConfusion he
  · intro hn
    rw [heval]
    cases t with
    | nullable v => rfl
    | _ => exact Bool.noConfusion hn
  · intro hn
    rw [heval]
    cases t with
    | nullable v => exact Bool.noConfusion hn
    | _ => rfl
  · intro ast hx
    exact (findTypeA_shape heap env false ast _ hx).2 rfl

/-- C9 witness: `i32?` resolves to `Nullable(I32)` and `i32??` is
rejected with `E302`. -/
theorem claim9_witness :
    findType heap0 env0 (.nullable (.ident "i32")) = .ok (.nullable .i32)
      ∧ findType heap0 env0 (.nullable (.nullable (.ident "i32"))) = .error .e302 := by
  constructor
  · exact (claim9_nullable_reject heap0 env0 (.ident "i32") .i32 rfl).2.1 rfl
  · exact (claim9_nullable_reject heap0 env0 (.nullable (.ident "i32")) (.nullable .i32)
      rfl).1.mpr rfl

end Gelix

namespace OldGir

/-- Inserting a fresh key into an insertion-ordered map appends it. -/
theorem insertIM_append {β : Type} :
    ∀ (acc : List (String × β)) (k : String) (v : β), (∀ e ∈ acc, e.1 ≠ k) →
      insertIM acc k v = acc ++ [(k, v)]
  | [], k, v, _ => rfl
  | (k', v') :: rest, k, v, h => by
    have hne : k' ≠ k := h (k', v') (List.mem_cons_self _ _)
    have hbeq : (k' == k) = false := beq_eq_false_iff_ne.mpr hne
    show (if (k' == k) = true then (k', v) :: rest else (k', v') :: insertIM rest k v)
      = (k', v') :: rest ++ [(k, v)]
    rw [hbeq, if_neg Bool.false_ne_true,
      insertIM_append rest k v (fun e he => h e (List.mem_cons_of_mem _ he))]
    rfl

/-- `buildFields` on a duplicate-free member list appends the fields it
builds, in order, to the accumulated map. -/
theorem buildFields_spec {τ ε γ δ : Type} (lower : ε → δ) (getType : δ → γ)
    (findType : τ → γ) :
    ∀ (ms : List (Member τ ε)) (i : Nat) (acc : List (String × FieldG γ δ)),
      (∀ m ∈ ms, ∀ e ∈ acc, e.1 ≠ m.name) → (memberNames ms).Nodup →
      buildFields lower getType findType i ms acc
        = (fieldList lower getType findType i ms).map (acc ++ ·) := by
  intro ms
  induction ms with
  | nil =>
    intro i acc _ _
    show some acc = some (acc ++ [])
    rw [List.append_nil]
  | cons m rest ih =>
    intro i acc hdisj hnd
    simp only [memberNames, List.map_cons, List.nodup_cons] at hnd
    obtain ⟨hnotin, hndrest⟩ := hnd
    cases hty : memberTy lower getType findType m with
    | none =>
      simp only [buildFields, fieldList, hty]
      rfl
    | some ty =>
      simp only [buildFields, fieldList, hty]
      have hins : insertIM acc m.name ⟨m.name, m.mutable, ty, m.initializer.map lower, i⟩
          = acc ++ [(m.name, ⟨m.name, m.mutable, ty, m.initializer.map lower, i⟩)] :=
        insertIM_append acc m.name _
          (fun e he => hdisj m (List.mem_cons_self _ _) e he)
      rw [hins]
      have hdisj2 : ∀ m2 ∈ rest,
          ∀ e ∈ acc ++ [(m.name, (⟨m.name, m.mutable, ty, m.initializer.map lower, i⟩
            : FieldG γ δ))], e.1 ≠ m2.name := by
        intro m2 hm2 e he
        rcases List.mem_append.mp he with hin | hin
        · exact hdisj m2 (List.mem_cons_of_mem _ hm2) e hin
        · rcases List.mem_singleton.mp hin with rfl
          intro hx
          apply hnotin
          have hx2 : m.name = m2.name := hx
          rw [hx2]
          exact List.mem_map_of_mem Member.name hm2
      rw [ih (i + 1) _ hdisj2 hndrest]
      cases hfl : fieldList lower getType findType (i + 1) rest with
      | none => rfl
      | some xs =>
        show some (acc ++ [(m.name, _)] ++ xs) = some (acc ++ ((m.name, _) :: xs))
        rw [List.append_assoc]
        rfl

/-- `build_adt` on a duplicate-free member list produces exactly the
enumerated field entries. -/
theorem buildAdt_spec {τ ε γ δ : Type} (lower : ε → δ) (getType : δ → γ) (findType : τ → γ)
    (ms : List (Member τ ε)) (hnd : (memberNames ms).Nodup) :
    buildAdt lower getType findType ms = fieldList lower getType findType 0 ms := by
  show buildFields lower getType findType 0 ms [] = _
  rw [buildFields_spec lower getType findType ms 0 []
    (fun m _ e he => absurd he (List.not_mem_nil e)) hnd]
  cases hfl : fieldList lower getType findType 0 ms with
  | none => rfl
  | some xs =>
    show some ([] ++ xs) = some xs
    rw [List.nil_append]

/-- The field entries of a member list have one entry per member. -/
theorem fieldList_length {τ ε γ δ : Type} (lower : ε → δ) (getType : δ → γ)
    (findType : τ → γ) :
    ∀ (ms : List (Member τ ε)) (i : Nat) (fs : List (String × FieldG γ δ)),
      fieldList lower getType findType i ms = some fs → fs.length = ms.length
  | [], _, fs, h => by
    cases Option.some.inj h
    rfl
  | m :: rest, i, fs, h => by
    cases hty : memberTy lower getType findType m with
    | none =>
      simp only [fieldList, hty] at h
      exact Option.noConfusion h
    | some ty =>
      cases hfl : fieldList lower getType findType (i + 1) rest with
      | none =>
        simp only [fieldList, hty, hfl, Option.map] at h
        exact Option.noConfusion h
      | some xs =>
        simp only [fieldList, hty, hfl, Option.map] at h
        cases h
        simp only [List.length_cons,
          fieldList_length lower getType findType rest (i + 1) xs hfl]

/-- Field entries of an appended member list: the suffix starts at the
index following the prefix. -/
theorem fieldList_append {τ ε γ δ : Type} (lower : ε → δ) (getType : δ → γ)
    (findType : τ → γ) :
    ∀ (xs ys : List (Member τ ε)) (i : Nat),
      fieldList lower getType findType i (xs ++ ys)
        = (fieldList lower getType findType i xs).bind
            (fun bx => (fieldList lower getType findType (i + xs.length) ys).map (bx ++ ·))
  | [], ys, i => by
    show fieldList lower getType findType i ys
      = (fieldList lower getType findType (i + 0) ys).map (List.append [])
    rw [Nat.add_zero]
    cases hfl : fieldList lower getType findType i ys with
    | none => rfl
    | some v =>
      show some v = some ([] ++ v)
      rw [List.nil_append]
  | x :: xs, ys, i => by
    cases hty : memberTy lower getType findType x with
    | none =>
      simp only [List.cons_append, fieldList, hty]
      rfl
    | some ty =>
      simp only [List.cons_append, fieldList, hty]
      simp only [List.append_eq]
      rw [fieldList_append lower getType findType xs ys (i + 1)]
      simp only [List.length_cons]
      have hlen : i + 1 + xs.length = i + (xs.length + 1) := by omega
      rw [hlen]
      cases hx : fieldList lower getType findType (i + 1) xs with
      | none => rfl
      | some bx =>
        cases hy : fieldList lower getType findType (i + (xs.length + 1)) ys with
        | none => rfl
        | some bys =>
          show some ((x.name, _) :: (bx ++ bys)) = some ((x.name, _) :: bx ++ bys)
          rw [List.cons_append]

/-- The j-th field entry of a member list: same member data, index
shifted by the start index. -/
theorem fieldList_get {τ ε γ δ : Type} (lower : ε → δ) (getType : δ → γ)
    (findType : τ → γ) :
    ∀ (ms : List (Member τ ε)) (i : Nat) (fs : List (String × FieldG γ δ)),
      fieldList lower getType findType i ms = some fs →
      ∀ j, j < ms.length →
        ∃ m ty, ms.get? j = some m ∧ memberTy lower getType findType m = some ty ∧
          fs.get? j = some (m.name, ⟨m.name, m.mutable, ty, m.initializer.map lower, i + j⟩)
  | [], _, _, _, j, hj => absurd hj (by simp)
  | m :: rest, i, fs, h, j, hj => by
    cases hty : memberTy lower getType findType m with
    | none =>
      simp only [fieldList, hty] at h
      exact Option.noConfusion h
    | some ty =>
      cases hfl : fieldList lower getType findType (i + 1) rest with
      | none =>
        simp only [fieldList, hty, hfl, Option.map] at h
        exact Option.noConfusion h
      | some xs =>
        simp only [fieldList, hty, hfl, Option.map] at h
        cases h
        cases j with
        | zero =>
          refine ⟨m, ty, rfl, hty, ?_⟩
          rw [Nat.add_zero]
          rfl
        | succ j2 =>
          have hj2 : j2 < rest.length := by
            simp only [List.length_cons] at hj
            omega
          obtain ⟨m2, ty2, hm2, hty2, hget⟩ :=
            fieldList_get lower getType findType rest (i + 1) xs hfl j2 hj2
          refine ⟨m2, ty2, hm2, hty2, ?_⟩
          show xs.get? j2 = _
          rw [hget]
          have : i + 1 + j2 = i + (j2 + 1) := by omega
          rw [this]

/-- A member list whose members all carry a type or an initializer
produces field entries. -/
theorem fieldList_isSome {τ ε γ δ : Type} (lower : ε → δ) (getType : δ → γ)
    (findType : τ → γ) :
    ∀ (ms : List (Member τ ε)) (i : Nat),
      (∀ m ∈ ms, (memberTy lower getType findType m).isSome = true) →
      ∃ fs, fieldList lower getType findType i ms = some fs
  | [], i, _ => ⟨[], rfl⟩
  | m :: rest, i, h => by
    obtain ⟨fs, hfs⟩ := fieldList_isSome lower getType findType rest (i + 1)
      (fun m2 hm2 => h m2 (List.mem_cons_of_mem _ hm2))
    have hm := h m (List.mem_cons_self _ _)
    cases hty : memberTy lower getType findType m with
    | none => rw [hty] at hm; exact Bool.noConfusion hm
    | some ty =>
      refine ⟨(m.name, ⟨m.name, m.mutable, ty, m.initializer.map lower, i⟩) :: fs, ?_⟩
      simp only [fieldList, hty, hfs]
      rfl

/-- C4, corrected, counterexample: a member carrying both an explicit
declared type and an initializer.  Instantiated over `Nat` stand-ins,
the resolver maps every declared type to `3` and type inference maps
every lowered initializer to `7`; the built field's type is `7` — the
initializer's inferred type — not `3`, the resolution of the declared
type, because `build_adt` computes
`initializer.map_or_else(|| find_type(ty), |i| i.get_type())`. -/
theorem claim4_counterexample :
    buildAdt (fun (e : Nat) => e) (fun (_ : Nat) => (7 : Nat)) (fun (_ : Nat) => (3 : Nat))
        [⟨"x", false, some 0, some 5⟩]
      = some [("x", ⟨"x", false, 7, some 5, 0⟩)]
      ∧ (7 : Nat) ≠ 3 := by
  constructor
  · rfl
  · decide

/-- C4, amended: the field pass gives a field the type inferred from
its lowered initializer whenever an initializer is present (even when
an explicit declared type also exists); the declared type is resolved
only when no initializer exists.  Stated for duplicate-free member
lists, the j-th inserted field carries index j and the type chosen by
that rule. -/
theorem claim4_amended {τ ε γ δ : Type} (lower : ε → δ) (getType : δ → γ)
    (findType : τ → γ) (ms : List (Member τ ε)) (fs : List (String × FieldG γ δ))
    (hnd : (memberNames ms).Nodup)
    (hb : buildAdt lower getType findType ms = some fs)
    (j : Nat) (hj : j < ms.length) :
    ∃ m entry, ms.get? j = some m ∧ fs.get? j = some entry
      ∧ entry.2.index = j
      ∧ (∀ e, m.initializer = some e → entry.2.ty = getType (lower e))
      ∧ (m.initializer = Option.none → ∃ tt, m.ty = some tt ∧ entry.2.ty = findType tt) := by
  rw [buildAdt_spec lower getType findType ms hnd] at hb
  obtain ⟨m, ty, hm, hty, hget⟩ := fieldList_get lower getType findType ms 0 fs hb j hj
  refine ⟨m, (m.name, ⟨m.name, m.mutable, ty, m.initializer.map lower, 0 + j⟩), hm, hget,
    Nat.zero_add j, ?_, ?_⟩
  · intro e he
    unfold memberTy at hty
    rw [he] at hty
    have h2 : some (getType (lower e)) = some ty := hty
    show ty = getType (lower e)
    exact (Option.some.inj h2).symm
  · intro he
    unfold memberTy at hty
    rw [he] at hty
    have h2 : Option.map findType m.ty = some ty := hty
    obtain ⟨tt, htt, hmap⟩ := Option.map_eq_some'.mp h2
    exact ⟨tt, htt, hmap.symm⟩

/-- C4 witness: the amended rule at a one-member list with a declared
type and no initializer. -/
theorem claim4_amended_witness :
    ∃ m entry,
      ([⟨"a", false, some 4, Option.none⟩] : List (Member Nat Nat)).get? 0 = some m
        ∧ ([("a", ⟨"a", false, 8, Option.none, 0⟩)]
            : List (String × FieldG Nat Nat)).get? 0 = some entry
        ∧ entry.2.index = 0
        ∧ (∀ e, m.initializer = some e → entry.2.ty = (fun x => x + 1) ((fun e => e) e))
        ∧ (m.initializer = Option.none → ∃ tt, m.ty = some tt
            ∧ entry.2.ty = (fun x => x * 2) tt) :=
  claim4_amended (fun (e : Nat) => e) (fun (x : Nat) => x + 1) (fun (x : Nat) => x * 2)
    [⟨"a", false, some 4, Option.none⟩] [("a", ⟨"a", false, 8, Option.none, 0⟩)]
    (by decide) rfl 0 (by decide)

/-- C5, confirmed (the parser that prepends the parent's members to an
enum case's member list is modelled from the AST documentation): for
duplicate-free, well-formed member lists, building the parent's fields
and the case's fields from `parent ++ own` makes the first
`parent.fields.len()` entries of the case's insertion-ordered field map
syntactically identical to the parent's fields (same names, types,
initializers, and dense indices from 0), while the case's own fields
receive indices starting at `parent.fields.len()`. -/
theorem claim5_enum_case_fields {τ ε γ δ : Type} (lower : ε → δ) (getType : δ → γ)
    (findType : τ → γ) (parentMs ownMs : List (Member τ ε))
    (hnd : (memberNames (enumCaseMembers parentMs ownMs)).Nodup)
    (hwf : ∀ m ∈ enumCaseMembers parentMs ownMs,
      (memberTy lower getType findType m).isSome = true) :
    ∃ pf cf, buildAdt lower getType findType parentMs = some pf
      ∧ buildAdt lower getType findType (enumCaseMembers parentMs ownMs) = some cf
      ∧ pf.length = parentMs.length
      ∧ cf.take parentMs.length = pf
      ∧ ∀ j, j < ownMs.length → ∃ entry, cf.get? (parentMs.length + j) = some entry
          ∧ entry.2.index = parentMs.length + j := by
  have hsplit : memberNames (enumCaseMembers parentMs ownMs)
      = memberNames parentMs ++ memberNames ownMs := by
    simp [enumCaseMembers, memberNames]
  rw [hsplit] at hnd
  have hnd2 : (memberNames parentMs).Nodup := (List.nodup_append.mp hnd).1
  have hwfp : ∀ m ∈ parentMs, (memberTy lower getType findType m).isSome = true :=
    fun m hm => hwf m (List.mem_append_left _ hm)
  have hwfo : ∀ m ∈ ownMs, (memberTy lower getType findType m).isSome = true :=
    fun m hm => hwf m (List.mem_append_right _ hm)
  obtain ⟨pf, hpf⟩ := fieldList_isSome lower getType findType parentMs 0 hwfp
  have hplen := fieldList_length lower getType findType parentMs 0 pf hpf
  obtain ⟨sf, hsf⟩ := fieldList_isSome lower getType findType ownMs (0 + parentMs.length) hwfo
  have hcomb : fieldList lower getType findType 0 (parentMs ++ ownMs) = some (pf ++ sf) := by
    rw [fieldList_append lower getType findType parentMs ownMs 0, hpf, hsf]
    rfl
  refine ⟨pf, pf ++ sf, ?_, ?_, hplen, ?_, ?_⟩
  · rw [buildAdt_spec lower getType findType parentMs hnd2]
    exact hpf
  · rw [buildAdt_spec lower getType findType (enumCaseMembers parentMs ownMs)
      (by rw [hsplit]; exact hnd)]
    exact hcomb
  · rw [← hplen]
    exact List.take_left pf sf
  · intro j hj
    obtain ⟨m, ty, hm, hty, hget⟩ :=
      fieldList_get lower getType findType ownMs (0 + parentMs.length) sf hsf j hj
    refine ⟨(m.name, ⟨m.name, m.mutable, ty, m.initializer.map lower,
      0 + parentMs.length + j⟩), ?_, by show 0 + parentMs.length + j = _; omega⟩
    rw [List.get?_append_right (by omega : pf.length ≤ parentMs.length + j)]
    rw [hplen]
    have hidx : parentMs.length + j - parentMs.length = j := by omega
    rw [hidx]
    exact hget

/-- C5 witness: a one-field parent and a one-field case. -/
theorem claim5_enum_case_fields_witness :
    ∃ pf cf, buildAdt (fun (e : Nat) => e) (fun (x : Nat) => x + 1) (fun (x : Nat) => x * 2)
        [⟨"p", false, some 1, Option.none⟩] = some pf
      ∧ buildAdt (fun (e : Nat) => e) (fun (x : Nat) => x + 1) (fun (x : Nat) => x * 2)
          (enumCaseMembers [⟨"p", false, some 1, Option.none⟩]
            [⟨"o", false, some 2, Option.none⟩]) = some cf
      ∧ pf.length = ([⟨"p", false, some 1, Option.none⟩] : List (Member Nat Nat)).length
      ∧ cf.take ([⟨"p", false, some 1, Option.none⟩] : List (Member Nat Nat)).length = pf
      ∧ ∀ j, j < ([⟨"o", false, some 2, Option.none⟩] : List (Member Nat Nat)).length →
          ∃ entry,
            cf.get? (([⟨"p", false, some 1, Option.none⟩]
              : List (Member Nat Nat)).length + j) = some entry
            ∧ entry.2.index
              = ([⟨"p", false, some 1, Option.none⟩] : List (Member Nat Nat)).length + j :=
  claim5_enum_case_fields (fun (e : Nat) => e) (fun (x : Nat) => x + 1) (fun (x : Nat) => x * 2)
    [⟨"p", false, some 1, Option.none⟩] [⟨"o", false, some 2, Option.none⟩]
    (by decide) (by decide)

end OldGir
